import Mathlib

/-!
# Verification of the BlindSpot recommendation engine

Shallow embedding of the recommendation/ranking route (`POST /api/recommend`,
`src/unnamed/part_002`) of the BlindSpot repository, together with proofs about
the claims of the specification.

Conventions of the embedding:

* JavaScript floating point numbers are modelled as exact rationals (`ℚ`).
  Every arithmetic comparison and combination in the scoring pipeline is a
  rational operation; the transcendental camera sub-score
  `clamp01(log1p(camsK1)/log(19))` is kept abstract as a function parameter
  (`Env.camScoreF`), since no claim depends on its values.
* The external `h3-js` spatial library (`latLngToCell`, `cellToParent`,
  `cellToLatLng`, `gridDisk`) and the float `haversineMeters` function are
  modelled by the function bundle `Geo`: all claims hold for every such bundle,
  and counterexamples/witnesses instantiate it with concrete simple functions.
  `cellToParent` is modelled as total (the source wraps it in try/catch and
  falls back to the child cell; the fallback is not reachable for well-formed
  indices).
* JavaScript strings are Lean `String`s; `String.prototype.toLowerCase` is
  modelled by the ASCII map `lowerChar` (every keyword and label in the route
  is ASCII; non-ASCII letters are replaced by a space by the following
  `[^a-z0-9\s]` step in both the source and the model).
* A JavaScript `Map` is modelled as an association list in key-insertion
  order, with `set` updating in place, which matches `Map` iteration order.
* Fallible steps are modelled explicitly: the body of the route's `try` block
  is a total function, and a thrown exception anywhere in it is modelled by
  the `fault` parameter of `postModel` (the reranker failure by `reply = none`).
-/

/-! ## Character and string utilities -/

/-- `(Char.ofNat n).toNat = n` for any valid scalar value `n`. -/
theorem toNat_ofNat_valid {n : Nat} (h : n.isValidChar) : (Char.ofNat n).toNat = n := by
  rw [Char.ofNat, dif_pos h]
  rfl

/-- ASCII lower-casing of one character, the model of
`String.prototype.toLowerCase` (source line 127). -/
def lowerChar (c : Char) : Char :=
  if 'A' ≤ c ∧ c ≤ 'Z' then Char.ofNat (c.toNat + 32) else c

theorem le_iff_toNat {a b : Char} : a ≤ b ↔ a.toNat ≤ b.toNat := Iff.rfl

theorem toNat_A : 'A'.toNat = 65 := rfl

theorem toNat_Z : 'Z'.toNat = 90 := rfl

theorem lowerChar_toNat_shift (c : Char) (h1 : 'A' ≤ c) (h2 : c ≤ 'Z') :
    (lowerChar c).toNat = c.toNat + 32 := by
  have hA : (65 : Nat) ≤ c.toNat := by have := le_iff_toNat.1 h1; rwa [toNat_A] at this
  have hZ : c.toNat ≤ 90 := by have := le_iff_toNat.1 h2; rwa [toNat_Z] at this
  have hv : (c.toNat + 32).isValidChar := Or.inl (by omega)
  rw [lowerChar, if_pos ⟨h1, h2⟩, toNat_ofNat_valid hv]

theorem lowerChar_of_not {c : Char} (h : ¬('A' ≤ c ∧ c ≤ 'Z')) : lowerChar c = c := by
  rw [lowerChar, if_neg h]

theorem lowerChar_idem (c : Char) : lowerChar (lowerChar c) = lowerChar c := by
  by_cases h : 'A' ≤ c ∧ c ≤ 'Z'
  · have h1 := lowerChar_toNat_shift c h.1 h.2
    have hA : (65 : Nat) ≤ c.toNat := by have := le_iff_toNat.1 h.1; rwa [toNat_A] at this
    have hn : ¬ ('A' ≤ lowerChar c ∧ lowerChar c ≤ 'Z') := by
      intro hc
      have ha := le_iff_toNat.1 hc.1
      rw [toNat_A] at ha
      have hb := le_iff_toNat.1 hc.2
      rw [toNat_Z] at hb
      omega
    exact lowerChar_of_not hn
  · rw [lowerChar_of_not h, lowerChar_of_not h]

/-- Apostrophe test: the characters removed by the regex `/['’]/g`
(source line 128). -/
def isApos (c : Char) : Bool := c == '\'' || c == '’'

/-- Whether a (already lower-cased) character is kept by the regex step
`[^a-z0-9\s]` → space (source line 129). -/
def isLowerAlnum (c : Char) : Bool :=
  decide (('a' ≤ c ∧ c ≤ 'z') ∨ ('0' ≤ c ∧ c ≤ '9'))

/-- One-character step of text normalization: keep lower-case alphanumerics,
turn everything else (including every whitespace kind) into a plain space. -/
def normReplace (c : Char) : Char :=
  if isLowerAlnum c then c else ' '

/-- Character-list normalization: lower-case, drop apostrophes, replace
non-alphanumerics by spaces (source lines 126-129). -/
def normChars (cs : List Char) : List Char :=
  ((cs.map lowerChar).filter (fun c => !(isApos c))).map normReplace

/-- Split a character list into maximal space-free words (model of the
`\s+` collapse plus `trim`, source lines 130-131). -/
def splitWordsAux : List Char → List Char → List (List Char)
  | acc, [] => if acc.isEmpty then [] else [acc.reverse]
  | acc, c :: cs =>
    if c == ' ' then
      (if acc.isEmpty then splitWordsAux [] cs else acc.reverse :: splitWordsAux [] cs)
    else
      splitWordsAux (c :: acc) cs

/-- `normalizeText` (source lines 125-132): lowercase, strip apostrophes,
replace non-alphanumerics by spaces, collapse whitespace runs, trim. -/
def normalizeText (s : String) : String :=
  String.mk (List.intercalate [' '] (splitWordsAux [] (normChars s.data)))

/-- `normalizeNameForKey` (source lines 95-102): the body is identical to
`normalizeText`, applied to a possibly missing name (`String(name || "")`). -/
def normalizeNameForKey (name : Option String) : String :=
  normalizeText (name.getD "")

/-- JavaScript `a || b` on optional strings: `a` when present and non-empty,
otherwise `b`. -/
def jsOr (a b : Option String) : Option String :=
  match a with
  | some s => if s = "" then b else some s
  | none => b

/-- Bool test used to model JS `s.includes(sub)`: `sub.data` occurs
contiguously inside `s.data`. -/
def strIncludesAux (needle : List Char) : List Char → Bool
  | [] => needle.isEmpty
  | c :: cs => needle.isPrefixOf (c :: cs) || strIncludesAux needle cs

/-- JS `String.prototype.includes`. -/
def strIncludes (s sub : String) : Bool := strIncludesAux sub.data s.data

/-- JS whitespace test used by `trim` on raw strings. -/
def isSpaceB (c : Char) : Bool :=
  c == ' ' || c == '\t' || c == '\n' || c == '\r' || c == '\x0b' || c == '\x0c'

/-- JS `String.prototype.trim`. -/
def strTrim (s : String) : String :=
  String.mk (((s.data.dropWhile isSpaceB).reverse.dropWhile isSpaceB).reverse)

/-- JS `String.prototype.slice(0, n)` for `n ≥ 0`. -/
def strTake (n : Nat) (s : String) : String :=
  String.mk (s.data.take n)

/-! ## Intent classification (source lines 71-75, 174-183) -/

/-- The four intents of the engine. -/
inductive Intent where
  | facebook_marketplace_sale
  | first_date
  | night_walk
  | general_safe_meetup
deriving DecidableEq

/-- `classifyIntent` (source lines 174-183): normalize, then first keyword
band that matches wins. -/
def classifyIntent (text : String) : Intent :=
  let t := normalizeText text
  if strIncludes t "facebook" || strIncludes t "marketplace" || strIncludes t "sell" ||
      strIncludes t "buyer" || strIncludes t "cash" then
    Intent.facebook_marketplace_sale
  else if strIncludes t "date" || strIncludes t "tinder" || strIncludes t "hinge" ||
      strIncludes t "first time" then
    Intent.first_date
  else if strIncludes t "night" || strIncludes t "walk" || strIncludes t "parking" ||
      strIncludes t "late" then
    Intent.night_walk
  else
    Intent.general_safe_meetup

/-! ## Place kinds and intent configurations (source lines 7-16, 185-263) -/

/-- The place kinds of the engine, including the synthetic hotspot kind. -/
inductive PlaceKind where
  | police
  | mall
  | mcd
  | park
  | cafe
  | library
  | parking
  | community_centre
  | community_hotspot
deriving DecidableEq

/-- The string form of a kind, as it appears in dedupe keys and display
reasons. -/
def kindStr : PlaceKind → String
  | .police => "police"
  | .mall => "mall"
  | .mcd => "mcd"
  | .park => "park"
  | .cafe => "cafe"
  | .library => "library"
  | .parking => "parking"
  | .community_centre => "community_centre"
  | .community_hotspot => "community_hotspot"

/-- `kind.replaceAll("_", " ")` used in the `Type:` reason string. -/
def kindDisplay : PlaceKind → String
  | .police => "police"
  | .mall => "mall"
  | .mcd => "mcd"
  | .park => "park"
  | .cafe => "cafe"
  | .library => "library"
  | .parking => "parking"
  | .community_centre => "community centre"
  | .community_hotspot => "community hotspot"

/-- An intent configuration (source lines 185-263). -/
structure IntentCfg where
  radiusM : ℚ
  maxDistanceM : ℚ
  kindWeight : PlaceKind → ℚ
  label : String
  kindsQuery : List PlaceKind

/-- `intentConfig` (source lines 185-263), transcribed weight for weight. -/
def intentConfig : Intent → IntentCfg
  | .facebook_marketplace_sale =>
    { radiusM := 6500
      maxDistanceM := 6500
      kindWeight := fun k =>
        match k with
        | .police => 1.0
        | .parking => 0.8
        | .mall => 0.75
        | .community_centre => 0.65
        | .cafe => 0.45
        | .library => 0.55
        | .park => 0.35
        | .mcd => 0.45
        | .community_hotspot => 0.55
      label := "Marketplace sale"
      kindsQuery := [.police, .parking, .mall, .community_centre, .library, .cafe, .mcd] }
  | .first_date =>
    { radiusM := 5000
      maxDistanceM := 5000
      kindWeight := fun k =>
        match k with
        | .cafe => 1.0
        | .mall => 0.8
        | .park => 0.7
        | .library => 0.6
        | .community_centre => 0.6
        | .mcd => 0.5
        | .police => 0.25
        | .parking => 0.3
        | .community_hotspot => 0.5
      label := "First date"
      kindsQuery := [.cafe, .mall, .park, .library, .community_centre, .mcd] }
  | .night_walk =>
    { radiusM := 4000
      maxDistanceM := 4000
      kindWeight := fun k =>
        match k with
        | .police => 1.0
        | .parking => 0.75
        | .mall => 0.6
        | .cafe => 0.45
        | .library => 0.35
        | .community_centre => 0.55
        | .park => 0.25
        | .mcd => 0.45
        | .community_hotspot => 0.55
      label := "Night walk"
      kindsQuery := [.police, .parking, .mall, .mcd, .community_centre] }
  | .general_safe_meetup =>
    { radiusM := 5500
      maxDistanceM := 5500
      kindWeight := fun k =>
        match k with
        | .police => 0.75
        | .mall => 0.75
        | .cafe => 0.75
        | .park => 0.6
        | .library => 0.6
        | .community_centre => 0.65
        | .parking => 0.55
        | .mcd => 0.55
        | .community_hotspot => 0.55
      label := "Safe meetup"
      kindsQuery := [.police, .mall, .cafe, .park, .library, .community_centre, .parking, .mcd] }

/-! ## Data model (source lines 18-85) -/

/-- A place candidate (source lines 18-24). -/
structure Place where
  id : String
  kind : PlaceKind
  name : Option String
  lat : ℚ
  lon : ℚ
deriving DecidableEq

/-- A camera point (source line 26). -/
structure CameraPt where
  lat : ℚ
  lon : ℚ
deriving DecidableEq

/-- A report-cell aggregate row (source lines 28-42).  The numeric counts are
rationals because the source passes them through `safeNum` (any non-finite
value becomes 0; finite values are kept as floats).  The untyped `details`
field is not modelled: the engine only copies it through. -/
structure ReportCell where
  h3_index : String
  camera_present_count : ℚ
  camera_absent_count : ℚ
  signage_count : ℚ
  summary : Option String
  signage_text : Option String
  place_name : Option String
  place_kind : Option String
  place_id : Option String
  place_source : Option String
  place_address : Option String
deriving DecidableEq

/-- A scored result item (source lines 44-69).  The write-only `_dedupeKey`
helper field is omitted; the model recomputes the key where needed. -/
structure RecommendItem where
  place : Place
  score : ℚ
  distance_m : ℚ
  h3 : String
  cameras_in_k1 : ℚ
  cameras_in_cell : ℚ
  report_yes : ℚ
  report_no : ℚ
  report_signage : ℚ
  conflict : Bool
  reasons : List String
  report_summary : Option String
  report_signage_text : Option String
  report_place_name : Option String
  report_place_kind : Option String
  report_place_id : Option String
  report_place_source : Option String
  report_place_address : Option String
deriving DecidableEq

/-- The bundle of external geometry functions consumed by the route:
the four `h3-js` operations and the float `haversineMeters` (the latter is
transcendental, so it is kept abstract; every theorem below holds for every
bundle). -/
structure Geo where
  latLngToCell : ℚ → ℚ → Nat → String
  cellToParent : String → Nat → String
  cellToLatLng : String → ℚ × ℚ
  gridDisk : String → Nat → List String
  haversine : ℚ → ℚ → ℚ → ℚ → ℚ

/-! ## Scoring helpers (source lines 265-309, 632-666) -/

/-- `clamp01` (source lines 265-267). -/
def clamp01 (x : ℚ) : ℚ := max 0 (min 1 x)

/-- The positive yes-count step of the community score
(source lines 639-642). -/
def yesStep (yes : ℚ) : ℚ :=
  if yes ≥ 6 then 1.15
  else if yes ≥ 4 then 0.95
  else if yes ≥ 2 then 0.70
  else if yes ≥ 1 then 0.30
  else 0

/-- The negative no-count step of the community score
(source lines 644-647). -/
def noStep (no : ℚ) : ℚ :=
  if no ≥ 6 then 0.95
  else if no ≥ 4 then 0.70
  else if no ≥ 2 then 0.35
  else if no ≥ 1 then 0.15
  else 0

/-- The community sub-score `repScore` (source lines 638-647). -/
def repScoreOf (yes no : ℚ) : ℚ := yesStep yes - noStep no

/-- The distance sub-score `distScore = clamp01(1 - d/maxDistance)`
(source line 632). -/
def distScoreOf (d maxD : ℚ) : ℚ := clamp01 (1 - d / maxD)

/-- `conflict = yes > 0 && no > 0` (source line 618). -/
def conflictOf (yes no : ℚ) : Bool := decide (yes > 0) && decide (no > 0)

/-- `nameMatchScore` (source lines 274-293): exact match, distinct-token
overlap, or substring containment. -/
def nameMatchScore (a b : Option String) : ℚ :=
  let A := normalizeText (a.getD "")
  let B := normalizeText (b.getD "")
  if A = "" ∨ B = "" then 0
  else if A = B then 1
  else
    let aToks := ((A.data.splitOn ' ').map String.mk).filter (fun t => t ≠ "") |>.eraseDups
    let bToks := ((B.data.splitOn ' ').map String.mk).filter (fun t => t ≠ "") |>.eraseDups
    let inter := (aToks.filter (fun t => bToks.contains t)).length
    let denom := max 1 (min aToks.length bToks.length)
    let overlap := (inter : ℚ) / (denom : ℚ)
    let sub : ℚ := if strIncludes A B || strIncludes B A then 0.35 else 0
    max overlap sub

/-- `promptMentionsPlace` (source lines 295-309). -/
def promptMentionsPlace (text : String) (placeName : Option String) : ℚ :=
  let t := normalizeText text
  let n := normalizeText (placeName.getD "")
  if t = "" ∨ n = "" then 0
  else if strIncludes t n then 1
  else
    let toks := ((n.data.splitOn ' ').map String.mk).filter (fun s => s ≠ "")
    if toks ≠ [] ∧ (toks.find? (fun x => decide (x.data.length ≥ 4) && strIncludes t x)).isSome
    then 0.55
    else 0

/-! ## Request environment (source lines 446-536) -/

/-- Everything the route body depends on after the three fan-out fetches:
the request fields, the geometry bundle, the abstract camera sub-score, and
the three fetched collections.  A fetch that failed is modelled by the
corresponding empty list, exactly as the source substitutes an empty result. -/
structure Env where
  geo : Geo
  camScoreF : ℚ → ℚ
  text : String
  lat : ℚ
  lon : ℚ
  maxResultsRaw : Nat
  exclude : PlaceKind → Bool
  places : List Place
  cameras : List CameraPt
  reportCells : List ReportCell

/-- `text` truncated to 800 characters (source line 460). -/
def Env.textT (e : Env) : String := strTake 800 e.text

/-- The classified intent of the request (source line 470). -/
def Env.intent (e : Env) : Intent := classifyIntent e.textT

/-- The intent configuration of the request (source line 471). -/
def Env.cfg (e : Env) : IntentCfg := intentConfig e.intent

/-- `maxResults = Math.max(1, Math.min(30, Number(body?.maxResults || 5)))`
(source line 464), for an integer input; `0` models an absent field. -/
def Env.maxResults (e : Env) : Nat :=
  max 1 (min 30 (if e.maxResultsRaw = 0 then 5 else e.maxResultsRaw))

/-- `communityEnabled = !exclude.has("community_hotspot")` (source line 488). -/
def Env.communityEnabled (e : Env) : Bool := ! e.exclude .community_hotspot

/-- `allowedKinds` (source line 489). -/
def Env.allowedKinds (e : Env) : List PlaceKind :=
  e.cfg.kindsQuery.filter (fun k => ! e.exclude k)

/-- The distance cap `maxDistanceM * 1.05` shared by the hotspot filter and
the scorer (source lines 572, 595). -/
def Env.cap (e : Env) : ℚ := e.cfg.maxDistanceM * 1.05

/-- Cameras per scoring-resolution cell (source lines 521-528): the number of
camera points whose resolution-10 cell is `h`. -/
def camCount (e : Env) (h : String) : ℚ :=
  ((e.cameras.filter (fun p => e.geo.latLngToCell p.lat p.lon 10 == h)).length : ℚ)

/-- The report map `repMap` (source lines 531-535): `Map.set` per row keyed by
`h3_index`, skipping falsy (empty) indices; a later row with the same index
overwrites an earlier one, so lookup finds the last such row. -/
def repMapGet (e : Env) (h : String) : Option ReportCell :=
  ((e.reportCells.filter (fun c => c.h3_index ≠ "")).reverse).find? (fun c => c.h3_index == h)

/-- `pickBestNearbyReportCell` (source lines 329-345): best total-weight cell
in the k-disk, first-encountered winning ties. -/
def pickBestNearbyReportCell (e : Env) (h3 : String) (k : Nat) : Option ReportCell :=
  ((e.geo.gridDisk h3 k).foldl
    (fun best hh =>
      match repMapGet e hh with
      | none => best
      | some c =>
        let w := c.camera_present_count + c.camera_absent_count + c.signage_count
        if w > best.2 then (some c, w) else best)
    ((none : Option ReportCell), (-1 : ℚ))).1

/-! ## The scorer (source lines 591-728) -/

/-- `scorePlace` (source lines 591-728).  Returns `none` exactly when the
candidate is excluded by kind or farther than `maxDistanceM * 1.05`;
otherwise the fully scored item that the source pushes onto `scored`. -/
def scorePlace (e : Env) (pl : Place) : Option RecommendItem :=
  if e.exclude pl.kind then none
  else
    let d := e.geo.haversine e.lat e.lon pl.lat pl.lon
    if d > e.cap then none
    else
      let placeH3 := e.geo.latLngToCell pl.lat pl.lon 10
      let neighbors := e.geo.gridDisk placeH3 1
      let camsInCell := camCount e placeH3
      let camsK1 := (neighbors.map (camCount e)).sum
      let cell : Option ReportCell :=
        match repMapGet e placeH3 with
        | some c => some c
        | none =>
          let bestNearby := pickBestNearbyReportCell e placeH3 1
          if nameMatchScore pl.name (bestNearby.bind (fun c => c.place_name)) ≥ 0.45 then
            bestNearby
          else none
      let yes := (cell.map (fun c => c.camera_present_count)).getD 0
      let no := (cell.map (fun c => c.camera_absent_count)).getD 0
      let signage := (cell.map (fun c => c.signage_count)).getD 0
      let conflict := conflictOf yes no
      let reportSummary := cell.bind (fun c => c.summary)
      let reportSignageText := cell.bind (fun c => c.signage_text)
      let reportPlaceName := cell.bind (fun c => c.place_name)
      let reportPlaceKind := cell.bind (fun c => c.place_kind)
      let reportPlaceSource := cell.bind (fun c => c.place_source)
      let reportPlaceId := cell.bind (fun c => c.place_id)
      let reportPlaceAddress := cell.bind (fun c => c.place_address)
      let distScore := distScoreOf d e.cfg.maxDistanceM
      let camScore := e.camScoreF camsK1
      let repScore := repScoreOf yes no
      let signageScore := clamp01 (signage / 4) * 0.35
      let mtch := nameMatchScore pl.name reportPlaceName
      let placeMatchBoost : ℚ := if mtch ≥ 0.75 then 0.45 else if mtch ≥ 0.45 then 0.22 else 0
      let mismatchPenalty : ℚ :=
        if reportPlaceName.getD "" ≠ "" ∧ mtch < 0.2 then 0.10 else 0
      let promptBoost : ℚ := if promptMentionsPlace e.textT pl.name > 0 then 0.35 else 0
      let typeW := e.cfg.kindWeight pl.kind
      let typeBonus := (typeW - 0.55) * 0.8
      let isHotspot := pl.kind = PlaceKind.community_hotspot
      let conflictPenalty : ℚ := if conflict then 0.35 else 0
      let weakHotspotPenalty : ℚ :=
        if isHotspot ∧ camsK1 = 0 ∧ yes < 5 then 0.28 else 0
      let score :=
        repScore * 2.5 + signageScore * 1.0 + distScore * 1.7 + camScore * 1.1 +
          typeBonus + placeMatchBoost + promptBoost - mismatchPenalty -
          conflictPenalty - weakHotspotPenalty
      let reasons : List String :=
        (if placeMatchBoost > 0 then ["Matches community reports for this place"] else []) ++
        (if promptBoost > 0 then ["Matches your request"] else []) ++
        (if isHotspot then
          [if yes ≥ 5 then "Community confirmed camera presence"
           else "Community reports camera presence"]
         else ["Type: " ++ kindDisplay pl.kind]) ++
        (if yes ≥ 5 then ["High community confidence"]
         else if yes ≥ 2 then ["Some community confirmation"]
         else if no ≥ 2 then ["Community reports fewer cameras"]
         else []) ++
        (if camsK1 ≥ 6 then ["High camera marker density nearby"]
         else if camsK1 ≥ 2 then ["Some camera markers nearby"]
         else ["Camera coverage uncertain (map data can be incomplete)"]) ++
        (if signage ≥ 1 then ["Signage mentioned nearby"] else []) ++
        (if conflict then ["Conflicting community reports"] else [])
      some
        { place := pl
          score := score
          distance_m := d
          h3 := placeH3
          cameras_in_k1 := camsK1
          cameras_in_cell := camsInCell
          report_yes := yes
          report_no := no
          report_signage := signage
          conflict := conflict
          reasons := reasons
          report_summary := reportSummary
          report_signage_text := reportSignageText
          report_place_name := reportPlaceName
          report_place_kind := reportPlaceKind
          report_place_id := reportPlaceId
          report_place_source := reportPlaceSource
          report_place_address := reportPlaceAddress }

/-! ## Hotspot builder (source lines 537-587) -/

/-- The per-parent accumulator `HotAgg` (source line 540). -/
structure HotAgg where
  yes : ℚ
  no : ℚ
  count : Nat
  bestChild : String
  bestYes : ℚ
deriving DecidableEq

/-- The parent cell of a report row at the hotspot resolution 9
(source line 551). -/
def parentOf (geo : Geo) (c : ReportCell) : String :=
  geo.cellToParent c.h3_index 9

/-- One step of the hotspot aggregation loop (source lines 543-566): rows with
`yesCount < 2` are discarded; otherwise the row is merged into its parent
group, tracking the child with the strictly highest yes-count seen so far. -/
def hotspotStep (geo : Geo) (m : List (String × HotAgg)) (c : ReportCell) :
    List (String × HotAgg) :=
  let yes := c.camera_present_count
  let no := c.camera_absent_count
  if yes < 2 then m
  else
    let parent := parentOf geo c
    match (m.find? (fun p => p.1 == parent)).map (fun p => p.2) with
    | none =>
      m ++ [(parent, { yes := yes, no := no, count := 1, bestChild := c.h3_index, bestYes := yes })]
    | some prev =>
      m.map (fun p =>
        if p.1 == parent then
          (parent,
            { yes := prev.yes + yes
              no := prev.no + no
              count := prev.count + 1
              bestChild := if yes > prev.bestYes then c.h3_index else prev.bestChild
              bestYes := if yes > prev.bestYes then yes else prev.bestYes })
        else p)

/-- The full aggregation map, in key-insertion order (source lines 541-566). -/
def hotspotAggregate (geo : Geo) (cells : List ReportCell) : List (String × HotAgg) :=
  cells.foldl (hotspotStep geo) []

/-- The synthesized or borrowed name of a hotspot (source lines 574-577). -/
def hotspotNameOf (e : Env) (a : HotAgg) : String :=
  let t := strTrim (((repMapGet e a.bestChild).bind (fun c => c.place_name)).getD "")
  if t ≠ "" then t
  else if a.yes ≥ 5 then "Community confirmed camera area"
  else "Community reported camera area"

/-- The built hotspot pseudo-places (source lines 568-586): one per aggregated
parent, centered on the best child cell, dropped when farther than
`maxDistanceM * 1.05` from the query point. -/
def buildHotspots (e : Env) : List Place :=
  (hotspotAggregate e.geo e.reportCells).filterMap (fun pa =>
    let center := e.geo.cellToLatLng pa.2.bestChild
    let d := e.geo.haversine e.lat e.lon center.1 center.2
    if d > e.cap then none
    else
      some
        { id := "community/" ++ pa.1
          kind := PlaceKind.community_hotspot
          name := some (hotspotNameOf e pa.2)
          lat := center.1
          lon := center.2 })

/-- `hotspots` as the route builds them: only when community hotspots are
enabled (source lines 538-539). -/
def Env.hotspots (e : Env) : List Place :=
  if e.communityEnabled then buildHotspots e else []

/-- The `scored` array (source lines 589, 730-734): every place, then every
hotspot, through `scorePlace`. -/
def Env.scored (e : Env) : List RecommendItem :=
  e.places.filterMap (scorePlace e) ++ e.hotspots.filterMap (scorePlace e)

/-! ## Identity-level dedupe (source lines 311-327) -/

/-- The dedupe key of `dedupeBestByKey` (source lines 316-318): kind plus
normalized name when the name is non-empty, else kind plus the
resolution-13 cell. -/
def dedupeKeyOf (geo : Geo) (it : RecommendItem) : String :=
  let nameKey :=
    match it.place.name with
    | some s => if s = "" then "" else normalizeText s
    | none => ""
  if nameKey ≠ "" then kindStr it.place.kind ++ "|" ++ nameKey
  else kindStr it.place.kind ++ "|" ++ geo.latLngToCell it.place.lat it.place.lon 13

/-- One step of `dedupeBestByKey`: keep the strictly higher-scoring item per
key, first-encountered winning ties, in key-insertion order
(source lines 315-324). -/
def bestInsert (geo : Geo) (m : List (String × RecommendItem)) (it : RecommendItem) :
    List (String × RecommendItem) :=
  let k := dedupeKeyOf geo it
  match (m.find? (fun p => p.1 == k)).map (fun p => p.2) with
  | none => m ++ [(k, it)]
  | some prev =>
    if it.score > prev.score then
      m.map (fun p => if p.1 == k then (k, it) else p)
    else m

/-- `dedupeBestByKey` (source lines 312-327). -/
def dedupeBestByKey (geo : Geo) (items : List RecommendItem) : List RecommendItem :=
  (items.foldl (bestInsert geo) []).map (fun p => p.2)

/-! ## Score sort (source line 740) -/

/-- Stable insertion of an item into a score-descending list: the new item
goes after every earlier item with an equal or higher score.  `Array.sort`
with comparator `b.score - a.score` is exactly the stable score-descending
sort, which this insertion sort implements. -/
def insertDesc (it : RecommendItem) : List RecommendItem → List RecommendItem
  | [] => [it]
  | x :: xs => if it.score > x.score then it :: x :: xs else x :: insertDesc it xs

/-- The stable score-descending sort (source line 740). -/
def sortByScoreDesc (l : List RecommendItem) : List RecommendItem :=
  l.foldl (fun acc it => insertDesc it acc) []

/-- `deduped`, after the in-place sort (source lines 737-740). -/
def Env.sortedDeduped (e : Env) : List RecommendItem :=
  sortByScoreDesc (dedupeBestByKey e.geo e.scored)

/-! ## Selection (source lines 768-805) -/

/-- `maxHotspots = communityEnabled ? Math.min(2, Math.ceil(maxResults / 3)) : 0`
(source line 769); for natural `n`, `Math.ceil(n / 3) = (n + 2) / 3` in `ℕ`. -/
def Env.maxHotspots (e : Env) : Nat :=
  if e.communityEnabled then min 2 ((e.maxResults + 2) / 3) else 0

/-- `evidenceStrength` (source line 775). -/
def evidenceStrength (x : RecommendItem) : ℚ :=
  x.report_yes * 2 + x.report_signage + min 6 x.cameras_in_k1

/-- `hasEvidence` (source line 776). -/
def hasEvidence (x : RecommendItem) : Bool := decide (evidenceStrength x ≥ 2)

/-- One selection loop (source lines 784-803): stop at `cap` items, skip
already used ids, otherwise push the item and record its id. -/
def selLoop (cap : Nat) (acc : List RecommendItem) (used : List String) :
    List RecommendItem → List RecommendItem × List String
  | [] => (acc, used)
  | it :: rest =>
    if cap ≤ acc.length then (acc, used)
    else if used.contains it.place.id then selLoop cap acc used rest
    else selLoop cap (acc ++ [it]) (used ++ [it.place.id]) rest

/-- `hotspotsSorted` (source line 771). -/
def Env.hotspotsSorted (e : Env) : List RecommendItem :=
  e.sortedDeduped.filter (fun x => x.place.kind = PlaceKind.community_hotspot)

/-- `othersSorted` (source line 772). -/
def Env.othersSorted (e : Env) : List RecommendItem :=
  e.sortedDeduped.filter (fun x => ¬ (x.place.kind = PlaceKind.community_hotspot))

/-- `primary` (source line 778). -/
def Env.primary (e : Env) : List RecommendItem := e.othersSorted.filter hasEvidence

/-- `secondary` (source line 779). -/
def Env.secondary (e : Env) : List RecommendItem :=
  e.othersSorted.filter (fun x => ! hasEvidence x)

/-- The three chained selection loops producing `top`
(source lines 781-803). -/
def Env.topSel (e : Env) : List RecommendItem :=
  let s1 := selLoop e.maxHotspots [] [] e.hotspotsSorted
  let s2 := selLoop e.maxResults s1.1 s1.2 e.primary
  (selLoop e.maxResults s2.1 s2.2 e.secondary).1

/-- `finalTop = top.slice(0, maxResults)` before the rerank call
(source line 805): the pre-rerank selection order. -/
def Env.preRerank (e : Env) : List RecommendItem :=
  e.topSel.take e.maxResults

/-! ## Advisory rerank (source lines 347-444) -/

/-- A parsed reranker reply: the `order` array (entries coerced to strings)
and the `reasons` record.  `none` models every failure of the collaborator:
timeout, thrown error, non-JSON or empty output — all of which make the
source set `aiJson = null`, hence `order = []` and `reasons = {}`. -/
structure AiReply where
  order : List String
  reasons : List (String × String)

/-- The reason attached to an id by the reply, if any. -/
def reasonLookup (reply : Option AiReply) (id : String) : Option String :=
  reply.bind (fun r => (r.reasons.find? (fun p => p.1 == id)).map (fun p => p.2))

/-- The id order of the reply (empty on failure). -/
def replyOrder (reply : Option AiReply) : List String :=
  match reply with
  | none => []
  | some r => r.order

/-- `byId.get(id)`: the JS `Map` built from `items` keeps, for each id, the
last item carrying it. -/
def byIdFind (items : List RecommendItem) (id : String) : Option RecommendItem :=
  items.reverse.find? (fun it => it.place.id == id)

/-- The reason prepending of the merge loop (source lines 431-434). -/
def annotateReason (reasons : String → Option String) (id : String)
    (it : RecommendItem) : RecommendItem :=
  match reasons id with
  | none => it
  | some r =>
    let rt := strTrim r
    if rt = "" then it
    else { it with reasons := strTake 90 rt :: it.reasons }

/-- One step of the merge loop over the reply order (source lines 425-436):
unknown ids are skipped, already used ids are skipped, otherwise the matching
item (annotated with its reason) is appended and its id recorded. -/
def rerankStep (items : List RecommendItem) (reasons : String → Option String)
    (acc : List RecommendItem × List String) (id : String) :
    List RecommendItem × List String :=
  match byIdFind items id with
  | none => acc
  | some it =>
    if acc.2.contains id then acc
    else (acc.1 ++ [annotateReason reasons id it], acc.2 ++ [id])

/-- The merge of the reply with the input list (source lines 421-441):
the picked prefix in reply order, then every input item whose id was not
used, in input order. -/
def rerankCore (items : List RecommendItem) (order : List String)
    (reasons : String → Option String) : List RecommendItem :=
  let p := order.foldl (rerankStep items reasons) ([], [])
  p.1 ++ items.filter (fun it => ! p.2.contains it.place.id)

/-- `aiRerankResults` (source lines 347-444), reduced to its data content:
an input of at most one item is returned unchanged without calling the
collaborator; otherwise the reply (or its failure) is merged as above. -/
def aiRerankResults (items : List RecommendItem) (reply : Option AiReply) :
    List RecommendItem :=
  if items.length ≤ 1 then items
  else rerankCore items (replyOrder reply) (reasonLookup reply)

/-! ## Presentation-level dedupe (source lines 104-122) -/

/-- The effective normalized name of an item for the final dedupe:
`normalizeNameForKey(it.place.name || it.report_place_name)`
(source lines 108, 110). -/
def effName (it : RecommendItem) : String :=
  normalizeNameForKey (jsOr it.place.name it.report_place_name)

/-- The duplicate test of `dedupeByNameAndDistance` (source lines 109-116):
both names non-empty, equal, and the pair within `maxMeters`. -/
def dupCheck (geo : Geo) (maxMeters : ℚ) (o it : RecommendItem) : Bool :=
  effName it ≠ "" && effName o ≠ "" && effName it == effName o &&
    decide (geo.haversine o.place.lat o.place.lon it.place.lat it.place.lon ≤ maxMeters)

/-- The accumulation loop of `dedupeByNameAndDistance` (source lines 105-119). -/
def dedupeAux (geo : Geo) (maxMeters : ℚ) (out : List RecommendItem) :
    List RecommendItem → List RecommendItem
  | [] => out
  | it :: rest =>
    if out.any (fun o => dupCheck geo maxMeters o it) then dedupeAux geo maxMeters out rest
    else dedupeAux geo maxMeters (out ++ [it]) rest

/-- `dedupeByNameAndDistance` (source lines 104-122). -/
def dedupeByNameAndDistance (geo : Geo) (items : List RecommendItem) (maxMeters : ℚ) :
    List RecommendItem :=
  dedupeAux geo maxMeters [] items

/-! ## The response (source lines 742-847) -/

/-- The hotspots-only results branch (source lines 743-749): when every real
place kind is excluded, the sorted deduped hotspots (or nothing when
community is disabled), capped at `maxResults`. -/
def Env.hotspotsOnlyResults (e : Env) : List RecommendItem :=
  (if e.communityEnabled then e.hotspotsSorted else []).take e.maxResults

/-- The normal results branch (source lines 805-824): pre-rerank selection,
advisory rerank, cap, final name-and-distance dedupe, cap. -/
def Env.normalResults (e : Env) (reply : Option AiReply) : List RecommendItem :=
  (dedupeByNameAndDistance e.geo ((aiRerankResults e.preRerank reply).take e.maxResults)
    180).take e.maxResults

/-- The `results` array of the response, in either branch. -/
def postResults (e : Env) (reply : Option AiReply) : List RecommendItem :=
  if e.allowedKinds = [] then e.hotspotsOnlyResults else e.normalResults reply

/-! ## Response payload and cache (source lines 85-86, 473-483, 742-852) -/

/-- The response payload fields the claims refer to.  `error` is `some msg`
exactly on the catch branch (source line 849); `note` carries the branch
annotation. -/
structure Payload where
  intent : Intent
  results : List RecommendItem
  error : Option String
  note : Option String
deriving DecidableEq

/-- A cache entry (source line 85). -/
structure CacheEntry where
  insertedAt : Nat
  data : Payload
deriving DecidableEq

/-- The module cache, as an association list in key-insertion order. -/
def Cache := List (String × CacheEntry)

/-- `memCache.get` (source line 480). -/
def cacheGet (cache : Cache) (key : String) : Option CacheEntry :=
  (List.find? (fun p => p.1 == key) cache).map (fun p => p.2)

/-- `memCache.set` (source lines 763, 846): replace in place when the key
exists, else append. -/
def cacheSet (cache : Cache) (key : String) (ent : CacheEntry) : Cache :=
  if (List.find? (fun p => p.1 == key) cache).isSome then
    List.map (fun p => if p.1 == key then (key, ent) else p) cache
  else
    List.append cache [(key, ent)]

/-- The successful payload of either branch (source lines 745-761, 826-844). -/
def freshPayload (e : Env) (reply : Option AiReply) : Payload :=
  if e.allowedKinds = [] then
    { intent := e.intent
      results := e.hotspotsOnlyResults
      error := none
      note := some (if e.communityEnabled then
          "Community-only mode: showing community hotspot candidates."
        else
          "All place kinds excluded and community disabled, returning no results.") }
  else
    { intent := e.intent
      results := e.normalResults reply
      error := none
      note := some "Recommendations prioritize community reports first, then distance, then camera markers. Place type has only a small influence so one nearby new place will not automatically kick out another." }

/-- The route handler after input validation (source lines 477-852), with the
request key precomputed (the source derives it deterministically from intent,
rounded coordinates, `maxResults`, the sorted exclusion set and a hash of the
normalized text, so identical requests share the key).  `fault = some msg`
models an exception thrown anywhere inside the `try` block — which contains
the whole pipeline and both `memCache.set` calls — making the catch branch
return the error payload; the 60-second TTL check replays a fresh-enough
cached payload untouched. -/
def postModel (cache : Cache) (now : Nat) (key : String) (e : Env)
    (reply : Option AiReply) (fault : Option String) : Payload × Cache :=
  let fresh : Payload × Cache :=
    match fault with
    | some msg => ({ intent := e.intent, results := [], error := some msg, note := none }, cache)
    | none =>
      let p := freshPayload e reply
      (p, cacheSet cache key { insertedAt := now, data := p })
  match cacheGet cache key with
  | some ent => if now - ent.insertedAt < 60000 then (ent.data, cache) else fresh
  | none => fresh

/-! ## Concrete test fixtures used by scenario theorems and witnesses -/

/-- A geometry bundle whose cell function is constant, parents are the cells
themselves, all centers are the origin and all distances are `d0`. -/
def flatGeo (cellName : String) (d0 : ℚ) : Geo :=
  { latLngToCell := fun _ _ _ => cellName
    cellToParent := fun c _ => c
    cellToLatLng := fun _ => (0, 0)
    gridDisk := fun c _ => [c]
    haversine := fun _ _ _ _ => d0 }

/-- A report cell with the given index, yes-count and reported name, and no
other evidence. -/
def mkCell (h : String) (y : ℚ) (nm : Option String) : ReportCell :=
  { h3_index := h
    camera_present_count := y
    camera_absent_count := 0
    signage_count := 0
    summary := none
    signage_text := none
    place_name := nm
    place_kind := none
    place_id := none
    place_source := none
    place_address := none }

/-- The scenario-B environment: a first-date request, one cafe candidate
200 m away, one report cell with six yes-reports attributed to its exact
scoring cell. -/
def envC5 : Env :=
  { geo := flatGeo "c0" 200
    camScoreF := fun _ => 0
    text := "first date"
    lat := 0
    lon := 0
    maxResultsRaw := 5
    exclude := fun _ => false
    places := [{ id := "p1", kind := PlaceKind.cafe, name := some "Cafe X", lat := 0, lon := 0 }]
    cameras := []
    reportCells := [mkCell "c0" 6 none] }

/-- The scenario-B candidate. -/
def plC5 : Place :=
  { id := "p1", kind := PlaceKind.cafe, name := some "Cafe X", lat := 0, lon := 0 }

/-- C5: for a candidate attributed a report cell with `yesCount = 6`,
`noCount = 0` at distance 200 m under the 5000 m-radius (first-date) intent,
the community sub-score is the top tier `1.15` (the yes-step has four
positive tiers `0.30/0.70/0.95/1.15` and the no-step four negative tiers at
the same thresholds), the distance sub-score is `1 - 200/5000 = 0.96`, and no
conflict is flagged (`conflict` holds iff both counts are positive); the full
scorer run on such a candidate indeed records `yes = 6`, `no = 0`,
`conflict = false`, `distance = 200`. -/
theorem claim_C5_scoring_scenario :
    repScoreOf 6 0 = 1.15 ∧
    (intentConfig Intent.first_date).maxDistanceM = 5000 ∧
    distScoreOf 200 5000 = 1 - 200 / 5000 ∧
    distScoreOf 200 5000 = 0.96 ∧
    conflictOf 6 0 = false ∧
    (∀ yes no : ℚ, conflictOf yes no = true ↔ 0 < yes ∧ 0 < no) ∧
    (yesStep 1 = 0.30 ∧ yesStep 2 = 0.70 ∧ yesStep 4 = 0.95 ∧ yesStep 6 = 1.15) ∧
    (noStep 1 = 0.15 ∧ noStep 2 = 0.35 ∧ noStep 4 = 0.70 ∧ noStep 6 = 0.95) ∧
    (scorePlace envC5 plC5).map
        (fun it => (it.report_yes, it.report_no, it.conflict, it.distance_m)) =
      some (6, 0, false, 200) := by
  refine ⟨by norm_num [repScoreOf, yesStep, noStep], rfl,
    by norm_num [distScoreOf, clamp01], by norm_num [distScoreOf, clamp01],
    by norm_num [conflictOf], ?_, ?_, ?_, ?_⟩
  · intro yes no
    simp [conflictOf]
  · refine ⟨?_, ?_, ?_, ?_⟩ <;> norm_num [yesStep]
  · refine ⟨?_, ?_, ?_, ?_⟩ <;> norm_num [noStep]
  · have hint : Env.intent envC5 = Intent.first_date := by decide
    have hexc : envC5.exclude plC5.kind = false := rfl
    have hd : envC5.geo.haversine envC5.lat envC5.lon plC5.lat plC5.lon = 200 := rfl
    have hcell : envC5.geo.latLngToCell plC5.lat plC5.lon 10 = "c0" := rfl
    have hdisk : envC5.geo.gridDisk "c0" 1 = ["c0"] := rfl
    have hcap : Env.cap envC5 = 5250 := by
      rw [Env.cap, Env.cfg, hint]
      norm_num [intentConfig]
    have hrep : repMapGet envC5 "c0" = some (mkCell "c0" 6 none) := by decide
    have hcam : camCount envC5 "c0" = 0 := by simp [camCount, envC5]
    have hnm : nameMatchScore plC5.name (none : Option String) = 0 := by decide
    have hpm : promptMentionsPlace (Env.textT envC5) plC5.name = 0 := by decide
    rw [scorePlace, hexc]
    simp only [hd, hcell, hdisk, hcap, hrep, hcam, hnm, hpm, mkCell, Bool.false_eq_true,
      if_false]
    norm_num [conflictOf]

/-! ## Classifier lemmas (claim C8) -/

theorem isApos_lowerChar (c : Char) : isApos (lowerChar c) = isApos c := by
  by_cases h : 'A' ≤ c ∧ c ≤ 'Z'
  · have hs := lowerChar_toNat_shift c h.1 h.2
    have hA : (65 : Nat) ≤ c.toNat := by have := le_iff_toNat.1 h.1; rwa [toNat_A] at this
    have hZ : c.toNat ≤ 90 := by have := le_iff_toNat.1 h.2; rwa [toNat_Z] at this
    have h1 : c ≠ '\'' := by
      intro e
      subst e
      exact absurd h.1 (by decide)
    have h2 : c ≠ '’' := by
      intro e
      subst e
      exact absurd h.2 (by decide)
    have h3 : lowerChar c ≠ '\'' := by
      intro e
      have := congrArg Char.toNat e
      rw [hs] at this
      simp only [show '\''.toNat = 39 from rfl] at this
      omega
    have h4 : lowerChar c ≠ '’' := by
      intro e
      have := congrArg Char.toNat e
      rw [hs] at this
      simp only [show '’'.toNat = 8217 from rfl] at this
      omega
    have e : ∀ x : Char, x ≠ '\'' → x ≠ '’' → isApos x = false := by
      intro x hx1 hx2
      simp only [isApos, Bool.or_eq_false_iff, beq_eq_false_iff_ne, ne_eq]
      exact ⟨hx1, hx2⟩
    rw [e _ h3 h4, e _ h1 h2]
  · rw [lowerChar_of_not h]

theorem map_lowerChar_idem (cs : List Char) :
    (cs.map lowerChar).map lowerChar = cs.map lowerChar := by
  rw [List.map_map]
  exact List.map_congr_left (fun c _ => lowerChar_idem c)

theorem normChars_map_lowerChar (cs : List Char) :
    normChars (cs.map lowerChar) = normChars cs := by
  rw [normChars, normChars, map_lowerChar_idem]

/-- `classifyIntent` factors through `normalizeText`. -/
theorem classifyIntent_congr {a b : String} (h : normalizeText a = normalizeText b) :
    classifyIntent a = classifyIntent b := by
  unfold classifyIntent
  rw [h]

/-- The classifier ignores letter case: two strings with the same
character-wise lower-casing classify identically. -/
theorem classifyIntent_lower_invariant (s t : String)
    (h : t.data.map lowerChar = s.data.map lowerChar) :
    classifyIntent t = classifyIntent s := by
  apply classifyIntent_congr
  unfold normalizeText
  rw [show normChars t.data = normChars s.data by
    rw [← normChars_map_lowerChar t.data, ← normChars_map_lowerChar s.data, h]]

/-- Removing apostrophes from the input (the claim's only punctuation the
normalizer strips rather than replaces). -/
def stripApos (s : String) : String :=
  String.mk (s.data.filter (fun c => !(isApos c)))

theorem filter_apos_map_lowerChar (cs : List Char) :
    (cs.filter (fun c => !(isApos c))).map lowerChar =
      (cs.map lowerChar).filter (fun c => !(isApos c)) := by
  induction cs with
  | nil => rfl
  | cons c cs ih =>
    simp only [List.map_cons, List.filter_cons, isApos_lowerChar]
    by_cases h : isApos c
    · simp [h, ih]
    · simp only [h]
      simp [ih]

theorem normChars_stripApos (cs : List Char) :
    normChars (cs.filter (fun c => !(isApos c))) = normChars cs := by
  rw [normChars, normChars, filter_apos_map_lowerChar, List.filter_filter]
  congr 1
  apply List.filter_congr
  intro c _
  cases h : isApos c <;> simp [h]

/-- The classifier is unchanged by deleting apostrophes from the input. -/
theorem classifyIntent_stripApos (s : String) :
    classifyIntent (stripApos s) = classifyIntent s := by
  apply classifyIntent_congr
  unfold normalizeText stripApos
  rw [normChars_stripApos]

/-- What the claim (wrongly, in general) asserts to be harmless: deleting
every non-alphanumeric character outright, before matching.  Modelled from
the claim's words. -/
def stripNonAlnumSpec (s : String) : String :=
  String.mk (s.data.filter
    (fun c => decide (('a' ≤ c ∧ c ≤ 'z') ∨ ('A' ≤ c ∧ c ≤ 'Z') ∨ ('0' ≤ c ∧ c ≤ '9'))))

/-- C8 (amended): `classifyIntent` is a pure total Lean function (identical
text trivially yields the same intent, and no exception exists); the empty
string classifies as the general-meetup intent; the result is unchanged by
changing letter case and by removing apostrophes — the only characters the
normalizer strips outright; other non-alphanumerics are replaced by spaces,
not stripped, so classification is *not* invariant under deleting them
(see the counterexample theorem); and the precedence bands apply in order
marketplace → dating → night/walk/parking → general. -/
theorem claim_C8_classifier_amended :
    (∀ s t : String, s = t → classifyIntent s = classifyIntent t) ∧
    (classifyIntent "" = Intent.general_safe_meetup) ∧
    (∀ s t : String, t.data.map lowerChar = s.data.map lowerChar →
      classifyIntent t = classifyIntent s) ∧
    (∀ s : String, classifyIntent (stripApos s) = classifyIntent s) ∧
    (classifyIntent "SELL, date, night walk" = Intent.facebook_marketplace_sale) ∧
    (classifyIntent "date night walk" = Intent.first_date) ∧
    (classifyIntent "night walk" = Intent.night_walk) ∧
    (classifyIntent "zzz" = Intent.general_safe_meetup) := by
  refine ⟨fun s t h => by rw [h], by decide, classifyIntent_lower_invariant,
    classifyIntent_stripApos, by decide, by decide, by decide, by decide⟩

/-- C8 counterexample: deleting the non-alphanumeric `.` from `"se.ll"`
changes the classification — the normalizer turns `.` into a space, so
`"se.ll"` contains no marketplace keyword, while the stripped `"sell"`
does. -/
theorem claim_C8_counterexample :
    stripNonAlnumSpec "se.ll" = "sell" ∧
    classifyIntent "se.ll" = Intent.general_safe_meetup ∧
    classifyIntent (stripNonAlnumSpec "se.ll") = Intent.facebook_marketplace_sale ∧
    classifyIntent (stripNonAlnumSpec "se.ll") ≠ classifyIntent "se.ll" := by
  refine ⟨by decide, by decide, by decide, by decide⟩

/-- Witness for the case-invariance hypothesis of C8's theorem at a concrete
pair of inputs. -/
theorem claim_C8_classifier_amended_witness :
    ("NIGHT Walk".data.map lowerChar = "night walk".data.map lowerChar) ∧
    classifyIntent "NIGHT Walk" = classifyIntent "night walk" :=
  ⟨by decide, claim_C8_classifier_amended.2.2.1 "night walk" "NIGHT Walk" (by decide)⟩

/-! ## Cache behaviour (claim C10) -/

/-- C10: a fault thrown anywhere inside the `try` block (which contains all
scoring and selection and both `memCache.set` calls) leaves the cache exactly
as it was, and the error payload is returned (with the request's intent and
no results) whenever the request was not served from cache; with no fault,
either the request is replayed from cache (cache unchanged) or the computed
payload — which carries no error — is stored at the request key.  In
particular a later identical request after an error finds no entry it did not
find before. -/
theorem claim_C10_cache_on_error :
    (∀ (cache : Cache) (now : Nat) (key : String) (e : Env) (reply : Option AiReply)
      (msg : String), (postModel cache now key e reply (some msg)).2 = cache) ∧
    (∀ (now : Nat) (key : String) (e : Env) (reply : Option AiReply) (msg : String),
      (postModel [] now key e reply (some msg)).1 =
        { intent := e.intent, results := [], error := some msg, note := none }) ∧
    (∀ (cache : Cache) (now : Nat) (key : String) (e : Env) (reply : Option AiReply),
      (postModel cache now key e reply none).2 = cache ∨
      ((postModel cache now key e reply none).1.error = none ∧
        (postModel cache now key e reply none).2 =
          cacheSet cache key
            { insertedAt := now, data := (postModel cache now key e reply none).1 })) ∧
    (∀ (cache : Cache) (now : Nat) (key k : String) (e : Env) (reply : Option AiReply)
      (msg : String),
      cacheGet (postModel cache now key e reply (some msg)).2 k = cacheGet cache k) := by
  have herr : ∀ (cache : Cache) (now : Nat) (key : String) (e : Env) (reply : Option AiReply)
      (msg : String), (postModel cache now key e reply (some msg)).2 = cache := by
    intro cache now key e reply msg
    rw [postModel]
    split
    · split
      · rfl
      · rfl
    · rfl
  refine ⟨herr, ?_, ?_, ?_⟩
  · intro now key e reply msg
    rfl
  · intro cache now key e reply
    have hfe : (freshPayload e reply).error = none := by
      rw [freshPayload]
      split <;> rfl
    rw [postModel]
    split
    · split
      · exact Or.inl rfl
      · exact Or.inr ⟨hfe, rfl⟩
    · exact Or.inr ⟨hfe, rfl⟩
  · intro cache now key k e reply msg
    rw [herr]

/-! ## Rerank failure fallback (claim C7) -/

/-- On collaborator failure (timeout, error, unparseable or empty output —
all modelled by `reply = none`) the merge returns its input unchanged. -/
theorem aiRerankResults_none (items : List RecommendItem) :
    aiRerankResults items none = items := by
  rw [aiRerankResults]
  split
  · rfl
  · rw [rerankCore]
    simp [replyOrder]

/-- C7: when the rerank collaborator times out, errors, or returns
unparseable output, the ordered list produced by the rerank stage (the
`finalTop` of source lines 808-822, the region this claim cites) is exactly
the pre-rerank selection: same items, same order, nothing added, removed or
moved.  The third conjunct records what the stage feeds the final
presentation dedupe, which is applied identically on the success path. -/
theorem claim_C7_rerank_fallback :
    (∀ items : List RecommendItem, aiRerankResults items none = items) ∧
    (∀ e : Env, (aiRerankResults e.preRerank none).take e.maxResults = e.preRerank) ∧
    (∀ e : Env, e.normalResults none =
      (dedupeByNameAndDistance e.geo e.preRerank 180).take e.maxResults) := by
  have h2 : ∀ e : Env, (aiRerankResults e.preRerank none).take e.maxResults = e.preRerank := by
    intro e
    rw [aiRerankResults_none, Env.preRerank, List.take_take, min_self]
  refine ⟨aiRerankResults_none, h2, ?_⟩
  intro e
  rw [Env.normalResults, h2]

/-! ## Rerank permutation machinery (claim C2) -/

/-- The id of an item. -/
def itemId (it : RecommendItem) : String := it.place.id

/-- Forget the (rerank-annotated) reasons of an item: everything the
reranker may legitimately change. -/
def clearReasons (it : RecommendItem) : RecommendItem := { it with reasons := [] }

theorem clearReasons_annotate (reasons : String → Option String) (id : String)
    (it : RecommendItem) :
    clearReasons (annotateReason reasons id it) = clearReasons it := by
  rw [annotateReason]
  cases reasons id with
  | none => rfl
  | some r =>
    dsimp only
    split
    · rfl
    · rfl

theorem itemId_annotate (reasons : String → Option String) (id : String)
    (it : RecommendItem) : itemId (annotateReason reasons id it) = itemId it := by
  rw [annotateReason]
  cases reasons id with
  | none => rfl
  | some r =>
    dsimp only
    split
    · rfl
    · rfl

theorem contains_iff_mem {l : List String} {a : String} : l.contains a = true ↔ a ∈ l := by
  simp [List.contains, List.elem_iff]

theorem find?_eq_of_unique {α : Type} (p : α → Bool) (a : α) :
    ∀ l : List α, a ∈ l → p a = true → (∀ b ∈ l, p b = true → b = a) →
      l.find? p = some a := by
  intro l
  induction l with
  | nil => intro h; exact absurd h (List.not_mem_nil a)
  | cons b t ih =>
    intro hmem hpa huniq
    by_cases hpb : p b = true
    · rw [List.find?_cons_of_pos _ hpb, huniq b (List.mem_cons_self b t) hpb]
    · rw [List.find?_cons_of_neg _ (by simpa using hpb)]
      have hat : a ∈ t := by
        rcases List.mem_cons.1 hmem with h | h
        · exact absurd (h ▸ hpa) hpb
        · exact h
      exact ih hat hpa (fun c hc hpc => huniq c (List.mem_cons_of_mem b hc) hpc)

theorem byIdFind_mem {items : List RecommendItem} {id : String} {it : RecommendItem}
    (h : byIdFind items id = some it) : it ∈ items ∧ itemId it = id := by
  constructor
  · have := List.mem_of_find?_eq_some h
    exact (List.mem_reverse).1 this
  · have := List.find?_some h
    simpa [itemId] using this

theorem byIdFind_eq_self {items : List RecommendItem}
    (hN : (items.map itemId).Nodup) {it : RecommendItem} (hmem : it ∈ items) :
    byIdFind items (itemId it) = some it := by
  rw [byIdFind]
  apply find?_eq_of_unique
  · exact (List.mem_reverse).2 hmem
  · simp [itemId]
  · intro b hb hpb
    have hb' : b ∈ items := (List.mem_reverse).1 hb
    have : itemId b = itemId it := by simpa [itemId] using hpb
    exact List.inj_on_of_nodup_map hN hb' hmem this

/-- The invariant of the merge fold over the reply order: the picked list
mirrors the used-id list, ids are unique and drawn from the input, and every
picked item is an input item up to reason annotation. -/
theorem rerankFold_inv (items : List RecommendItem) (reasons : String → Option String)
    (order : List String) :
    ∀ acc : List RecommendItem × List String,
      acc.1.map itemId = acc.2 →
      acc.2.Nodup →
      (∀ x ∈ acc.1, ∃ y ∈ items, itemId x = itemId y ∧ clearReasons x = clearReasons y) →
      (∀ id ∈ acc.2, id ∈ items.map itemId) →
      (order.foldl (rerankStep items reasons) acc).1.map itemId =
          (order.foldl (rerankStep items reasons) acc).2 ∧
        (order.foldl (rerankStep items reasons) acc).2.Nodup ∧
        (∀ x ∈ (order.foldl (rerankStep items reasons) acc).1,
          ∃ y ∈ items, itemId x = itemId y ∧ clearReasons x = clearReasons y) ∧
        (∀ id ∈ (order.foldl (rerankStep items reasons) acc).2, id ∈ items.map itemId) := by
  induction order with
  | nil => intro acc h1 h2 h3 h4; exact ⟨h1, h2, h3, h4⟩
  | cons id rest ih =>
    intro acc h1 h2 h3 h4
    rw [List.foldl_cons]
    rcases hfind : byIdFind items id with _ | it
    · have hred : rerankStep items reasons acc id = acc := by rw [rerankStep, hfind]
      rw [hred]
      exact ih acc h1 h2 h3 h4
    · by_cases hused : acc.2.contains id = true
      · have hred : rerankStep items reasons acc id = acc := by
          rw [rerankStep, hfind]
          exact if_pos hused
        rw [hred]
        exact ih acc h1 h2 h3 h4
      · have hred : rerankStep items reasons acc id =
            (acc.1 ++ [annotateReason reasons id it], acc.2 ++ [id]) := by
          rw [rerankStep, hfind]
          exact if_neg hused
        rw [hred]
        rcases byIdFind_mem hfind with ⟨hit, hid⟩
        apply ih
        · rw [List.map_append, h1, List.map_cons, List.map_nil, itemId_annotate, hid]
        · rw [List.nodup_append]
          refine ⟨h2, List.nodup_singleton id, ?_⟩
          intro a ha hb
          rw [List.mem_singleton] at hb
          subst hb
          exact hused (contains_iff_mem.2 ha)
        · intro x hx
          rcases List.mem_append.1 hx with hx | hx
          · exact h3 x hx
          · rcases List.mem_singleton.1 hx
            exact ⟨it, hit, itemId_annotate .., clearReasons_annotate ..⟩
        · intro i hi
          rcases List.mem_append.1 hi with hi | hi
          · exact h4 i hi
          · rcases List.mem_singleton.1 hi
            exact hid ▸ List.mem_map_of_mem itemId hit

theorem map_filter_comm {α β : Type} (f : α → β) (q : β → Bool) (l : List α) :
    (l.filter (fun a => q (f a))).map f = (l.map f).filter q := by
  induction l with
  | nil => rfl
  | cons a t ih =>
    rw [List.map_cons, List.filter_cons, List.filter_cons]
    cases h : q (f a) with
    | true => simp only [if_true, List.map_cons, ih]
    | false => simp only [Bool.false_eq_true, if_false, ih]

/-- A placeholder item (never looked up on the paths that matter; only used
to totalize an id-indexed lookup). -/
def dummyItem : RecommendItem :=
  { place := { id := "", kind := PlaceKind.police, name := none, lat := 0, lon := 0 }
    score := 0
    distance_m := 0
    h3 := ""
    cameras_in_k1 := 0
    cameras_in_cell := 0
    report_yes := 0
    report_no := 0
    report_signage := 0
    conflict := false
    reasons := []
    report_summary := none
    report_signage_text := none
    report_place_name := none
    report_place_kind := none
    report_place_id := none
    report_place_source := none
    report_place_address := none }

/-- The heart of claim C2: with pairwise distinct input ids, the merge result
is a permutation of the input, both at the id level and at the item level up
to the reason annotation. -/
theorem rerankCore_perms (items : List RecommendItem) (order : List String)
    (reasons : String → Option String) (hN : (items.map itemId).Nodup) :
    ((rerankCore items order reasons).map itemId).Perm (items.map itemId) ∧
    ((rerankCore items order reasons).map clearReasons).Perm (items.map clearReasons) := by
  rcases rerankFold_inv items reasons order ([], []) rfl List.nodup_nil
    (by intro x hx; exact absurd hx (List.not_mem_nil x))
    (by intro i hi; exact absurd hi (List.not_mem_nil i)) with ⟨i1, i2, i3, i4⟩
  have hcore : rerankCore items order reasons =
      (order.foldl (rerankStep items reasons) ([], [])).1 ++
        items.filter (fun it =>
          ! (order.foldl (rerankStep items reasons) ([], [])).2.contains (itemId it)) := rfl
  have hids : (rerankCore items order reasons).map itemId =
      (order.foldl (rerankStep items reasons) ([], [])).2 ++
        (items.map itemId).filter (fun id =>
          ! (order.foldl (rerankStep items reasons) ([], [])).2.contains id) := by
    rw [hcore, List.map_append, i1, map_filter_comm itemId
      (fun id => ! (order.foldl (rerankStep items reasons) ([], [])).2.contains id) items]
  have hpFilter : ((items.map itemId).filter (fun id =>
      (order.foldl (rerankStep items reasons) ([], [])).2.contains id)).Perm
      (order.foldl (rerankStep items reasons) ([], [])).2 := by
    apply (List.perm_ext_iff_of_nodup (hN.filter _) i2).2
    intro a
    constructor
    · intro ha
      exact contains_iff_mem.1 (List.of_mem_filter ha)
    · intro ha
      exact List.mem_filter.2 ⟨i4 a ha, contains_iff_mem.2 ha⟩
  have step1 : ((order.foldl (rerankStep items reasons) ([], [])).2 ++
      (items.map itemId).filter (fun id =>
        ! (order.foldl (rerankStep items reasons) ([], [])).2.contains id)).Perm
      (((items.map itemId).filter (fun id =>
        (order.foldl (rerankStep items reasons) ([], [])).2.contains id)) ++
      (items.map itemId).filter (fun id =>
        ! (order.foldl (rerankStep items reasons) ([], [])).2.contains id)) :=
    (hpFilter.symm).append_right _
  have step2 : ((((items.map itemId).filter (fun id =>
      (order.foldl (rerankStep items reasons) ([], [])).2.contains id)) ++
      (items.map itemId).filter (fun id =>
        ! (order.foldl (rerankStep items reasons) ([], [])).2.contains id)).Perm
      (items.map itemId)) := by
    exact List.filter_append_perm _ _
  have hperm_ids : ((rerankCore items order reasons).map itemId).Perm (items.map itemId) := by
    rw [hids]
    exact step1.trans step2
  refine ⟨hperm_ids, ?_⟩
  have hresF : ∀ x ∈ rerankCore items order reasons,
      clearReasons x = clearReasons ((byIdFind items (itemId x)).getD dummyItem) := by
    intro x hx
    rw [hcore] at hx
    rcases List.mem_append.1 hx with hx | hx
    · rcases i3 x hx with ⟨y, hy, hxy, hclear⟩
      rw [hclear, hxy, byIdFind_eq_self hN hy]
      rfl
    · have hx2 : x ∈ items := List.mem_of_mem_filter hx
      rw [byIdFind_eq_self hN hx2]
      rfl
  have hitemsF : ∀ y ∈ items,
      clearReasons y = clearReasons ((byIdFind items (itemId y)).getD dummyItem) := by
    intro y hy
    rw [byIdFind_eq_self hN hy]
    rfl
  have e1 : (rerankCore items order reasons).map clearReasons =
      ((rerankCore items order reasons).map itemId).map
        (fun id => clearReasons ((byIdFind items id).getD dummyItem)) := by
    rw [List.map_map]
    exact List.map_congr_left (fun x hx => hresF x hx)
  have e2 : items.map clearReasons =
      (items.map itemId).map (fun id => clearReasons ((byIdFind items id).getD dummyItem)) := by
    rw [List.map_map]
    exact List.map_congr_left (fun y hy => hitemsF y hy)
  rw [e1, e2]
  exact hperm_ids.map _

/-- C2: the rerank step never changes the candidate id set, only the order.
An input of at most one candidate is returned unchanged; in general the
output is a picked prefix (ids taken from the reply — unknown ids dropped,
each id used once) followed by exactly the input items whose ids were not
used, in their original relative order; and for inputs with pairwise
distinct ids (which the selection stage guarantees) the output is a
permutation of the input, both as an id multiset and item-wise up to the
reason annotation the merge may prepend. -/
theorem claim_C2_rerank_permutation :
    (∀ (items : List RecommendItem) (reply : Option AiReply),
      items.length ≤ 1 → aiRerankResults items reply = items) ∧
    (∀ (items : List RecommendItem) (reply : Option AiReply),
      ∃ picked, aiRerankResults items reply =
        picked ++ items.filter (fun it => ! (picked.map itemId).contains (itemId it))) ∧
    (∀ (items : List RecommendItem) (reply : Option AiReply),
      (items.map itemId).Nodup →
      ((aiRerankResults items reply).map itemId).Perm (items.map itemId)) ∧
    (∀ (items : List RecommendItem) (reply : Option AiReply),
      (items.map itemId).Nodup →
      ((aiRerankResults items reply).map clearReasons).Perm (items.map clearReasons)) := by
  refine ⟨?_, ?_, ?_, ?_⟩
  · intro items reply h
    rw [aiRerankResults, if_pos h]
  · intro items reply
    by_cases h : items.length ≤ 1
    · refine ⟨[], ?_⟩
      rw [aiRerankResults, if_pos h]
      simp
    · refine ⟨((replyOrder reply).foldl (rerankStep items (reasonLookup reply)) ([], [])).1, ?_⟩
      rw [aiRerankResults, if_neg h]
      rcases rerankFold_inv items (reasonLookup reply) (replyOrder reply) ([], []) rfl
        List.nodup_nil
        (by intro x hx; exact absurd hx (List.not_mem_nil x))
        (by intro i hi; exact absurd hi (List.not_mem_nil i)) with ⟨i1, _, _, _⟩
      rw [show rerankCore items (replyOrder reply) (reasonLookup reply) =
        ((replyOrder reply).foldl (rerankStep items (reasonLookup reply)) ([], [])).1 ++
          items.filter (fun it =>
            ! ((replyOrder reply).foldl (rerankStep items (reasonLookup reply))
                ([], [])).2.contains (itemId it)) from rfl, i1]
  · intro items reply hN
    by_cases h : items.length ≤ 1
    · rw [aiRerankResults, if_pos h]
    · rw [aiRerankResults, if_neg h]
      exact (rerankCore_perms items (replyOrder reply) (reasonLookup reply) hN).1
  · intro items reply hN
    by_cases h : items.length ≤ 1
    · rw [aiRerankResults, if_pos h]
    · rw [aiRerankResults, if_neg h]
      exact (rerankCore_perms items (replyOrder reply) (reasonLookup reply) hN).2

/-- A two-item concrete rerank input. -/
def witItemA : RecommendItem :=
  { dummyItem with place := { id := "a", kind := PlaceKind.cafe, name := some "A", lat := 0, lon := 0 } }

/-- A second concrete rerank input item. -/
def witItemB : RecommendItem :=
  { dummyItem with place := { id := "b", kind := PlaceKind.mall, name := some "B", lat := 0, lon := 0 } }

/-- Witness for C2 at a concrete two-item list and a reply carrying a
duplicate and an unknown id. -/
theorem claim_C2_rerank_permutation_witness :
    (([witItemA, witItemB].map itemId).Nodup) ∧
    ((aiRerankResults [witItemA, witItemB]
        (some { order := ["b", "zz", "b", "a"], reasons := [] })).map itemId).Perm
      ([witItemA, witItemB].map itemId) :=
  ⟨by decide,
    claim_C2_rerank_permutation.2.2.1 [witItemA, witItemB]
      (some { order := ["b", "zz", "b", "a"], reasons := [] }) (by decide)⟩

/-! ## Pipeline stage lemmas -/

theorem insertDesc_perm (it : RecommendItem) (l : List RecommendItem) :
    (insertDesc it l).Perm (it :: l) := by
  induction l with
  | nil => exact List.Perm.refl _
  | cons x xs ih =>
    rw [insertDesc]
    split
    · exact List.Perm.refl _
    · exact (ih.cons x).trans (List.Perm.swap it x xs)

theorem sortFold_perm (l : List RecommendItem) :
    ∀ acc : List RecommendItem,
      (l.foldl (fun acc it => insertDesc it acc) acc).Perm (acc ++ l) := by
  induction l with
  | nil => intro acc; simp
  | cons x t ih =>
    intro acc
    rw [List.foldl_cons]
    refine (ih (insertDesc x acc)).trans ?_
    refine (((insertDesc_perm x acc).append_right t).trans ?_)
    exact List.perm_middle.symm

theorem sortByScoreDesc_perm (l : List RecommendItem) : (sortByScoreDesc l).Perm l := by
  have := sortFold_perm l []
  simpa [sortByScoreDesc] using this

/-- The selection loop appends a sublist of its input, keeps the used-id list
in lockstep with the picked list, and preserves id uniqueness. -/
theorem selLoop_inv (cap : Nat) :
    ∀ (l : List RecommendItem) (acc : List RecommendItem) (used : List String),
      acc.map itemId = used → used.Nodup →
      (selLoop cap acc used l).1.map itemId = (selLoop cap acc used l).2 ∧
        (selLoop cap acc used l).2.Nodup ∧
        ∃ s, (selLoop cap acc used l).1 = acc ++ s ∧ s.Sublist l := by
  intro l
  induction l with
  | nil =>
    intro acc used h1 h2
    exact ⟨h1, h2, [], by simp [selLoop], List.nil_sublist []⟩
  | cons x t ih =>
    intro acc used h1 h2
    rw [selLoop]
    by_cases hcap : cap ≤ acc.length
    · rw [if_pos hcap]
      exact ⟨h1, h2, [], by simp, List.nil_sublist _⟩
    · rw [if_neg hcap]
      by_cases hused : used.contains x.place.id = true
      · rw [if_pos hused]
        rcases ih acc used h1 h2 with ⟨j1, j2, s, hs, hsub⟩
        exact ⟨j1, j2, s, hs, hsub.cons x⟩
      · rw [if_neg hused]
        have h1' : (acc ++ [x]).map itemId = used ++ [x.place.id] := by
          rw [List.map_append, h1]
          rfl
        have h2' : (used ++ [x.place.id]).Nodup := by
          rw [List.nodup_append]
          refine ⟨h2, List.nodup_singleton _, ?_⟩
          intro a ha hb
          rw [List.mem_singleton] at hb
          subst hb
          exact hused (contains_iff_mem.2 ha)
        rcases ih (acc ++ [x]) (used ++ [x.place.id]) h1' h2' with ⟨j1, j2, s, hs, hsub⟩
        refine ⟨j1, j2, x :: s, ?_, hsub.cons₂ x⟩
        rw [hs, List.append_assoc]
        rfl

/-- The selection loop never exceeds its cap. -/
theorem selLoop_length (cap : Nat) :
    ∀ (l : List RecommendItem) (acc : List RecommendItem) (used : List String),
      acc.length ≤ cap → (selLoop cap acc used l).1.length ≤ cap := by
  intro l
  induction l with
  | nil => intro acc used h; exact h
  | cons x t ih =>
    intro acc used h
    rw [selLoop]
    by_cases hcap : cap ≤ acc.length
    · rw [if_pos hcap]
      exact h
    · rw [if_neg hcap]
      by_cases hused : used.contains x.place.id = true
      · rw [if_pos hused]
        exact ih acc used h
      · rw [if_neg hused]
        exact ih (acc ++ [x]) (used ++ [x.place.id]) (by
          rw [List.length_append, List.length_singleton]
          omega)

/-- One `bestInsert` step preserves the dedupe-map invariants: unique keys,
key-consistent values, values drawn from the old map or the new item. -/
theorem bestInsert_inv (geo : Geo) (m : List (String × RecommendItem)) (x : RecommendItem)
    (h1 : (m.map Prod.fst).Nodup) (h2 : ∀ p ∈ m, dedupeKeyOf geo p.2 = p.1) :
    ((bestInsert geo m x).map Prod.fst).Nodup ∧
      (∀ p ∈ bestInsert geo m x, dedupeKeyOf geo p.2 = p.1) ∧
      (∀ p ∈ bestInsert geo m x, p.2 ∈ m.map Prod.snd ∨ p.2 = x) := by
  rw [bestInsert]
  split
  · next hf =>
    refine ⟨?_, ?_, ?_⟩
    · rw [List.map_append, List.map_cons, List.map_nil, List.nodup_append]
      refine ⟨h1, List.nodup_singleton _, ?_⟩
      intro a ha hb
      rw [List.mem_singleton] at hb
      subst hb
      rcases List.mem_map.1 ha with ⟨p, hp, hpa⟩
      have hnone : (List.find? (fun q => q.1 == dedupeKeyOf geo x) m) = none := by
        cases hg : List.find? (fun q => q.1 == dedupeKeyOf geo x) m with
        | none => rfl
        | some q =>
          rw [hg] at hf
          exact absurd hf (by simp)
      have := List.find?_eq_none.1 hnone p hp
      simp only [beq_iff_eq] at this
      exact this hpa
    · intro p hp
      rcases List.mem_append.1 hp with hp | hp
      · exact h2 p hp
      · rw [List.mem_singleton] at hp
        subst hp
        rfl
    · intro p hp
      rcases List.mem_append.1 hp with hp | hp
      · exact Or.inl (List.mem_map_of_mem Prod.snd hp)
      · rw [List.mem_singleton] at hp
        subst hp
        exact Or.inr rfl
  · next prev hf =>
    split
    · refine ⟨?_, ?_, ?_⟩
      · have hfst : (List.map Prod.fst (m.map (fun p =>
            if p.1 == dedupeKeyOf geo x then (dedupeKeyOf geo x, x) else p))) =
            m.map Prod.fst := by
          rw [List.map_map]
          apply List.map_congr_left
          intro p hp
          by_cases hk : (p.1 == dedupeKeyOf geo x) = true
          · simp only [Function.comp_apply, hk, if_true]
            exact (beq_iff_eq.1 hk).symm
          · simp only [Function.comp_apply, hk, Bool.false_eq_true, if_false]
        rw [hfst]
        exact h1
      · intro p hp
        rcases List.mem_map.1 hp with ⟨q, hq, hqp⟩
        by_cases hk : (q.1 == dedupeKeyOf geo x) = true
        · rw [if_pos hk] at hqp
          subst hqp
          rfl
        · rw [if_neg hk] at hqp
          subst hqp
          exact h2 q hq
      · intro p hp
        rcases List.mem_map.1 hp with ⟨q, hq, hqp⟩
        by_cases hk : (q.1 == dedupeKeyOf geo x) = true
        · rw [if_pos hk] at hqp
          subst hqp
          exact Or.inr rfl
        · rw [if_neg hk] at hqp
          subst hqp
          exact Or.inl (List.mem_map_of_mem Prod.snd hq)
    · exact ⟨h1, h2, fun p hp => Or.inl (List.mem_map_of_mem Prod.snd hp)⟩

/-- The identity-dedupe fold: keys stay unique, every stored value carries
its own key, and every stored value is drawn from the initial map or the
processed items. -/
theorem dedupeFold_inv (geo : Geo) :
    ∀ (items : List RecommendItem) (m : List (String × RecommendItem)),
      (m.map Prod.fst).Nodup →
      (∀ p ∈ m, dedupeKeyOf geo p.2 = p.1) →
      ((items.foldl (bestInsert geo) m).map Prod.fst).Nodup ∧
        (∀ p ∈ items.foldl (bestInsert geo) m, dedupeKeyOf geo p.2 = p.1) ∧
        (∀ p ∈ items.foldl (bestInsert geo) m, p.2 ∈ m.map Prod.snd ∨ p.2 ∈ items) := by
  intro items
  induction items with
  | nil =>
    intro m h1 h2
    exact ⟨h1, h2, fun p hp => Or.inl (List.mem_map_of_mem Prod.snd hp)⟩
  | cons x t ih =>
    intro m h1 h2
    rw [List.foldl_cons]
    have hstep := bestInsert_inv geo m x h1 h2
    rcases hstep with ⟨s1, s2, s3⟩
    rcases ih (bestInsert geo m x) s1 s2 with ⟨r1, r2, r3⟩
    refine ⟨r1, r2, ?_⟩
    intro p hp
    rcases r3 p hp with hp2 | hp2
    · rcases List.mem_map.1 hp2 with ⟨q, hq, hqp⟩
      rcases s3 q hq with hq2 | hq2
      · exact Or.inl (hqp ▸ hq2)
      · right
        rw [← hqp, hq2]
        exact List.mem_cons_self x t
    · exact Or.inr (List.mem_cons_of_mem x hp2)

/-- The identity dedupe (`dedupeBestByKey`): values have pairwise distinct
keys and all come from the input. -/
theorem dedupeBestByKey_inv (geo : Geo) (items : List RecommendItem) :
    List.Pairwise (fun a b => dedupeKeyOf geo a ≠ dedupeKeyOf geo b)
        (dedupeBestByKey geo items) ∧
      ∀ x ∈ dedupeBestByKey geo items, x ∈ items := by
  rcases dedupeFold_inv geo items [] (by simp) (by simp) with ⟨h1, h2, h3⟩
  constructor
  · rw [dedupeBestByKey]
    have hmapkeys : ((items.foldl (bestInsert geo) []).map Prod.snd).map (dedupeKeyOf geo) =
        (items.foldl (bestInsert geo) []).map Prod.fst := by
      rw [List.map_map]
      apply List.map_congr_left
      intro p hp
      exact h2 p hp
    have hnd : (((items.foldl (bestInsert geo) []).map Prod.snd).map
        (dedupeKeyOf geo)).Nodup := by
      rw [hmapkeys]
      exact h1
    have := List.pairwise_map.1 hnd
    exact this.imp (fun hab => hab)
  · intro x hx
    rcases List.mem_map.1 hx with ⟨p, hp, hpx⟩
    rcases h3 p hp with h | h
    · simp at h
    · exact hpx ▸ h

/-- The final dedupe appends a sublist of its input after the accumulator. -/
theorem dedupeAux_shape (geo : Geo) (mm : ℚ) :
    ∀ (rest out : List RecommendItem),
      ∃ s, dedupeAux geo mm out rest = out ++ s ∧ s.Sublist rest := by
  intro rest
  induction rest with
  | nil =>
    intro out
    exact ⟨[], by simp [dedupeAux], List.nil_sublist _⟩
  | cons it t ih =>
    intro out
    rw [dedupeAux]
    split
    · rcases ih out with ⟨s, hs, hsub⟩
      exact ⟨s, hs, hsub.cons it⟩
    · rcases ih (out ++ [it]) with ⟨s, hs, hsub⟩
      refine ⟨it :: s, ?_, hsub.cons₂ it⟩
      rw [hs, List.append_assoc]
      rfl

theorem dedupeByNameAndDistance_sublist (geo : Geo) (mm : ℚ) (items : List RecommendItem) :
    (dedupeByNameAndDistance geo items mm).Sublist items := by
  rcases dedupeAux_shape geo mm items [] with ⟨s, hs, hsub⟩
  rw [dedupeByNameAndDistance, hs]
  simpa using hsub

/-- The final dedupe output is pairwise free of name-and-distance duplicates:
for every earlier item `o` and later item `it`, `dupCheck o it` fails. -/
theorem dedupeAux_pairwise (geo : Geo) (mm : ℚ) :
    ∀ (rest out : List RecommendItem),
      List.Pairwise (fun o it => dupCheck geo mm o it = false) out →
      (∀ o ∈ out, ∀ it ∈ rest, True) →
      List.Pairwise (fun o it => dupCheck geo mm o it = false) (dedupeAux geo mm out rest) := by
  intro rest
  induction rest with
  | nil =>
    intro out hout _
    rw [dedupeAux]
    exact hout
  | cons it t ih =>
    intro out hout _
    rw [dedupeAux]
    split
    · exact ih out hout (fun _ _ _ _ => trivial)
    · next hnodup =>
      apply ih
      · rw [List.pairwise_append]
        refine ⟨hout, List.pairwise_singleton _ _, ?_⟩
        intro o ho b hb
        rw [List.mem_singleton] at hb
        rw [hb]
        have hfalse : out.any (fun o => dupCheck geo mm o it) = false := by
          cases h : out.any (fun o => dupCheck geo mm o it) with
          | true => exact absurd h hnodup
          | false => rfl
        have hthis := List.any_eq_false.1 hfalse o ho
        cases h : dupCheck geo mm o it with
        | true => exact absurd h hthis
        | false => rfl
      · exact fun _ _ _ _ => trivial

theorem dedupeByNameAndDistance_pairwise (geo : Geo) (mm : ℚ) (items : List RecommendItem) :
    List.Pairwise (fun o it => dupCheck geo mm o it = false)
      (dedupeByNameAndDistance geo items mm) :=
  dedupeAux_pairwise geo mm items [] (List.Pairwise.nil) (fun _ _ _ _ => trivial)

/-- Anatomy of a successful `scorePlace`: the item keeps the candidate as its
place, records the computed distance, and that distance is within the cap. -/
theorem scorePlace_some {e : Env} {pl : Place} {x : RecommendItem}
    (h : scorePlace e pl = some x) :
    x.place = pl ∧ x.distance_m = e.geo.haversine e.lat e.lon pl.lat pl.lon ∧
      x.distance_m ≤ e.cap ∧ e.exclude pl.kind = false := by
  rw [scorePlace] at h
  by_cases hex : e.exclude pl.kind
  · rw [if_pos hex] at h
    exact absurd h (by simp)
  · rw [if_neg hex] at h
    by_cases hd : e.geo.haversine e.lat e.lon pl.lat pl.lon > e.cap
    · rw [if_pos hd] at h
      exact absurd h (by simp)
    · rw [if_neg hd] at h
      have hx := (Option.some_inj.1 h).symm
      subst hx
      exact ⟨rfl, rfl, le_of_not_gt hd, by simpa using hex⟩

/-- A candidate beyond the cap (or of an excluded kind) is never scored. -/
theorem scorePlace_none_of_far {e : Env} {pl : Place}
    (h : e.geo.haversine e.lat e.lon pl.lat pl.lon > e.cap) : scorePlace e pl = none := by
  rw [scorePlace]
  by_cases hex : e.exclude pl.kind
  · rw [if_pos hex]
  · rw [if_neg hex, if_pos h]

/-- Membership in `scored` comes from a successful `scorePlace` run on a
fetched place or a built hotspot. -/
theorem mem_scored {e : Env} {x : RecommendItem} (h : x ∈ e.scored) :
    ∃ pl, (pl ∈ e.places ∨ pl ∈ e.hotspots) ∧ scorePlace e pl = some x := by
  rw [Env.scored] at h
  rcases List.mem_append.1 h with h | h
  · rcases List.mem_filterMap.1 h with ⟨pl, hpl, hs⟩
    exact ⟨pl, Or.inl hpl, hs⟩
  · rcases List.mem_filterMap.1 h with ⟨pl, hpl, hs⟩
    exact ⟨pl, Or.inr hpl, hs⟩

/-- Every scored item sits within the distance cap. -/
theorem scored_distance_le {e : Env} {x : RecommendItem} (h : x ∈ e.scored) :
    x.distance_m ≤ e.cap := by
  rcases mem_scored h with ⟨pl, _, hs⟩
  exact (scorePlace_some hs).2.2.1

/-- Every built hotspot lies within the distance cap. -/
theorem buildHotspots_distance_le (e : Env) :
    ∀ h ∈ buildHotspots e, e.geo.haversine e.lat e.lon h.lat h.lon ≤ e.cap := by
  intro h hmem
  rw [buildHotspots] at hmem
  rcases List.mem_filterMap.1 hmem with ⟨pa, _, hsome⟩
  by_cases hd : e.geo.haversine e.lat e.lon (e.geo.cellToLatLng pa.2.bestChild).1
      (e.geo.cellToLatLng pa.2.bestChild).2 > e.cap
  · rw [if_pos hd] at hsome
    exact absurd hsome (by simp)
  · rw [if_neg hd] at hsome
    have := (Option.some_inj.1 hsome).symm
    subst this
    exact le_of_not_gt hd

/-- Every built hotspot is of the synthetic kind and carries a non-empty
name. -/
theorem buildHotspots_kind_name (e : Env) :
    ∀ h ∈ buildHotspots e, h.kind = PlaceKind.community_hotspot ∧
      ∃ s, h.name = some s ∧ s ≠ "" := by
  intro h hmem
  rw [buildHotspots] at hmem
  rcases List.mem_filterMap.1 hmem with ⟨pa, _, hsome⟩
  by_cases hd : e.geo.haversine e.lat e.lon (e.geo.cellToLatLng pa.2.bestChild).1
      (e.geo.cellToLatLng pa.2.bestChild).2 > e.cap
  · rw [if_pos hd] at hsome
    exact absurd hsome (by simp)
  · rw [if_neg hd] at hsome
    have := (Option.some_inj.1 hsome).symm
    subst this
    refine ⟨rfl, hotspotNameOf e pa.2, rfl, ?_⟩
    rw [hotspotNameOf]
    split
    · next ht => exact ht
    · split
      · intro hcontra
        exact absurd hcontra (by decide)
      · intro hcontra
        exact absurd hcontra (by decide)

theorem clearReasons_place (x : RecommendItem) : (clearReasons x).place = x.place := rfl

theorem clearReasons_distance (x : RecommendItem) :
    (clearReasons x).distance_m = x.distance_m := rfl

theorem clearReasons_rpn (x : RecommendItem) :
    (clearReasons x).report_place_name = x.report_place_name := rfl

/-- Every rerank output item is an input item up to reason annotation. -/
theorem aiRerankResults_mem {items : List RecommendItem} {reply : Option AiReply}
    {x : RecommendItem} (h : x ∈ aiRerankResults items reply) :
    ∃ y ∈ items, itemId x = itemId y ∧ clearReasons x = clearReasons y := by
  rw [aiRerankResults] at h
  by_cases hlen : items.length ≤ 1
  · rw [if_pos hlen] at h
    exact ⟨x, h, rfl, rfl⟩
  · rw [if_neg hlen] at h
    rcases rerankFold_inv items (reasonLookup reply) (replyOrder reply) ([], []) rfl
      List.nodup_nil
      (by intro a ha; exact absurd ha (List.not_mem_nil a))
      (by intro i hi; exact absurd hi (List.not_mem_nil i)) with ⟨_, _, i3, _⟩
    have hcore : rerankCore items (replyOrder reply) (reasonLookup reply) =
        ((replyOrder reply).foldl (rerankStep items (reasonLookup reply)) ([], [])).1 ++
          items.filter (fun it =>
            ! ((replyOrder reply).foldl (rerankStep items (reasonLookup reply))
                ([], [])).2.contains (itemId it)) := rfl
    rw [hcore] at h
    rcases List.mem_append.1 h with h | h
    · exact i3 x h
    · exact ⟨x, List.mem_of_mem_filter h, rfl, rfl⟩

/-- For a reason-blind predicate, the rerank step preserves counts on inputs
with pairwise distinct ids. -/
theorem aiRerankResults_countP (items : List RecommendItem) (reply : Option AiReply)
    (P : RecommendItem → Bool) (hP : ∀ x, P (clearReasons x) = P x)
    (hN : (items.map itemId).Nodup) :
    (aiRerankResults items reply).countP P = items.countP P := by
  have hfun : (fun x => P (clearReasons x)) = P := funext hP
  rw [aiRerankResults]
  by_cases hlen : items.length ≤ 1
  · rw [if_pos hlen]
  · rw [if_neg hlen]
    have hperm := (rerankCore_perms items (replyOrder reply) (reasonLookup reply) hN).2
    have := hperm.countP_eq P
    rw [List.countP_map, List.countP_map] at this
    simpa [Function.comp_def, hfun] using this

/-- The selection output decomposes into the three loop contributions; its
ids are pairwise distinct and at most `maxHotspots` items came from the
hotspot loop. -/
theorem topSel_shape (e : Env) :
    ∃ s1 s2 s3, e.topSel = s1 ++ s2 ++ s3 ∧ s1.Sublist e.hotspotsSorted ∧
      s2.Sublist e.primary ∧ s3.Sublist e.secondary ∧
      s1.length ≤ e.maxHotspots ∧ (e.topSel.map itemId).Nodup := by
  rcases selLoop_inv e.maxHotspots e.hotspotsSorted [] [] rfl List.nodup_nil with
    ⟨a1, a2, s1, hs1, hsub1⟩
  rcases selLoop_inv e.maxResults e.primary
      (selLoop e.maxHotspots [] [] e.hotspotsSorted).1
      (selLoop e.maxHotspots [] [] e.hotspotsSorted).2 a1 a2 with ⟨b1, b2, s2, hs2, hsub2⟩
  rcases selLoop_inv e.maxResults e.secondary
      (selLoop e.maxResults (selLoop e.maxHotspots [] [] e.hotspotsSorted).1
        (selLoop e.maxHotspots [] [] e.hotspotsSorted).2 e.primary).1
      (selLoop e.maxResults (selLoop e.maxHotspots [] [] e.hotspotsSorted).1
        (selLoop e.maxHotspots [] [] e.hotspotsSorted).2 e.primary).2 b1 b2 with
    ⟨c1, c2, s3, hs3, hsub3⟩
  have htop : e.topSel =
      (selLoop e.maxResults (selLoop e.maxResults
        (selLoop e.maxHotspots [] [] e.hotspotsSorted).1
        (selLoop e.maxHotspots [] [] e.hotspotsSorted).2 e.primary).1
        (selLoop e.maxResults (selLoop e.maxHotspots [] [] e.hotspotsSorted).1
          (selLoop e.maxHotspots [] [] e.hotspotsSorted).2 e.primary).2 e.secondary).1 := rfl
  refine ⟨s1, s2, s3, ?_, hsub1, hsub2, hsub3, ?_, ?_⟩
  · rw [htop, hs3, hs2, hs1]
    simp
  · have h1 : (selLoop e.maxHotspots [] [] e.hotspotsSorted).1.length ≤ e.maxHotspots :=
      selLoop_length e.maxHotspots e.hotspotsSorted [] [] (Nat.zero_le _)
    have : s1.length ≤ (selLoop e.maxHotspots [] [] e.hotspotsSorted).1.length := by
      rw [hs1]
      simp
    omega
  · rw [htop]
    have := c1
    rw [this]
    exact c2

/-- Every selected item comes from the sorted deduped pool. -/
theorem mem_topSel {e : Env} {x : RecommendItem} (h : x ∈ e.topSel) :
    x ∈ e.sortedDeduped := by
  rcases topSel_shape e with ⟨s1, s2, s3, hshape, hsub1, hsub2, hsub3, _, _⟩
  rw [hshape] at h
  rcases List.mem_append.1 h with h | h
  · rcases List.mem_append.1 h with h | h
    · exact List.mem_of_mem_filter (hsub1.subset h)
    · have h2 : x ∈ e.primary := hsub2.subset h
      have h3 : x ∈ e.othersSorted := List.mem_of_mem_filter h2
      exact List.mem_of_mem_filter h3
  · have h2 : x ∈ e.secondary := hsub3.subset h
    have h3 : x ∈ e.othersSorted := List.mem_of_mem_filter h2
    exact List.mem_of_mem_filter h3

/-- Every item of the sorted deduped pool is a scored item. -/
theorem mem_sortedDeduped {e : Env} {x : RecommendItem} (h : x ∈ e.sortedDeduped) :
    x ∈ e.scored := by
  rw [Env.sortedDeduped] at h
  have := (sortByScoreDesc_perm (dedupeBestByKey e.geo e.scored)).mem_iff.1 h
  exact (dedupeBestByKey_inv e.geo e.scored).2 x this

/-- Every item of the response traces back to a scored item, identically up
to the rerank reason annotation (in particular with the same place, distance
and borrowed report identity). -/
theorem mem_postResults {e : Env} {reply : Option AiReply} {x : RecommendItem}
    (h : x ∈ postResults e reply) :
    ∃ y ∈ e.scored, clearReasons x = clearReasons y := by
  rw [postResults] at h
  by_cases hb : e.allowedKinds = []
  · rw [if_pos hb] at h
    rw [Env.hotspotsOnlyResults] at h
    have h1 := (List.take_sublist _ _).subset h
    by_cases hc : e.communityEnabled
    · rw [if_pos hc] at h1
      have h2 : x ∈ e.sortedDeduped := List.mem_of_mem_filter h1
      exact ⟨x, mem_sortedDeduped h2, rfl⟩
    · rw [if_neg hc] at h1
      exact absurd h1 (List.not_mem_nil x)
  · rw [if_neg hb] at h
    rw [Env.normalResults] at h
    have h1 := (List.take_sublist _ _).subset h
    have h2 := (dedupeByNameAndDistance_sublist e.geo 180 _).subset h1
    have h3 := (List.take_sublist _ _).subset h2
    rcases aiRerankResults_mem h3 with ⟨y, hy, _, hclear⟩
    have h4 : y ∈ e.topSel := (List.take_sublist _ _).subset hy
    exact ⟨y, mem_sortedDeduped (mem_topSel h4), hclear⟩

/-- C1: every result of a recommendation response (either branch) records a
distance of at most `maxDistanceMeters * 1.05`; a candidate farther than the
cap (for any geometry) is excluded before scoring, and a hotspot farther
than the cap is dropped before it becomes a candidate. -/
theorem claim_C1_distance_cap :
    (∀ (e : Env) (reply : Option AiReply),
      (postResults e reply).all
        (fun x => decide (x.distance_m ≤ e.cfg.maxDistanceM * 1.05)) = true) ∧
    (∀ (e : Env) (pl : Place), scorePlace e pl = none ∨
      e.geo.haversine e.lat e.lon pl.lat pl.lon ≤ e.cfg.maxDistanceM * 1.05) ∧
    (∀ e : Env,
      (buildHotspots e).all
        (fun h => decide (e.geo.haversine e.lat e.lon h.lat h.lon ≤
          e.cfg.maxDistanceM * 1.05)) = true) := by
  have hcap : ∀ e : Env, e.cap = e.cfg.maxDistanceM * 1.05 := fun e => rfl
  refine ⟨?_, ?_, ?_⟩
  · intro e reply
    apply List.all_eq_true.2
    intro x hx
    rcases mem_postResults hx with ⟨y, hy, hclear⟩
    have hdist : x.distance_m = y.distance_m := by
      rw [← clearReasons_distance x, hclear, clearReasons_distance]
    rw [decide_eq_true_iff, hdist, ← hcap]
    exact scored_distance_le hy
  · intro e pl
    by_cases hd : e.geo.haversine e.lat e.lon pl.lat pl.lon > e.cap
    · exact Or.inl (scorePlace_none_of_far hd)
    · right
      rw [← hcap]
      exact le_of_not_gt hd
  · intro e
    apply List.all_eq_true.2
    intro h hmem
    rw [decide_eq_true_iff, ← hcap]
    exact buildHotspots_distance_le e h hmem

theorem countP_partition {α : Type} (P q : α → Bool) (l : List α) :
    (l.filter q).countP P + (l.filter (fun x => !q x)).countP P = l.countP P := by
  have := (List.filter_append_perm q l).countP_eq P
  rw [List.countP_append] at this
  exact this

/-- Ids of the pre-rerank selection are pairwise distinct. -/
theorem preRerank_nodup_ids (e : Env) : (e.preRerank.map itemId).Nodup := by
  rcases topSel_shape e with ⟨_, _, _, _, _, _, _, _, hN⟩
  rw [Env.preRerank, List.map_take]
  exact List.Nodup.sublist (List.take_sublist _ _) hN

/-- In the normal branch, a reason-blind count over the response is bounded
by the same count over the selection. -/
theorem countP_normal_le_topSel (e : Env) (reply : Option AiReply)
    (P : RecommendItem → Bool) (hP : ∀ x, P (clearReasons x) = P x)
    (hb : ¬ e.allowedKinds = []) :
    (postResults e reply).countP P ≤ e.topSel.countP P := by
  rw [postResults, if_neg hb, Env.normalResults]
  have h1 : ((dedupeByNameAndDistance e.geo
      ((aiRerankResults e.preRerank reply).take e.maxResults) 180).take
        e.maxResults).countP P ≤
      ((aiRerankResults e.preRerank reply).take e.maxResults).countP P :=
    Nat.le_trans (List.Sublist.countP_le P (List.take_sublist _ _))
      (List.Sublist.countP_le P (dedupeByNameAndDistance_sublist e.geo 180 _))
  have h2 : ((aiRerankResults e.preRerank reply).take e.maxResults).countP P ≤
      (aiRerankResults e.preRerank reply).countP P :=
    List.Sublist.countP_le P (List.take_sublist _ _)
  have h3 : (aiRerankResults e.preRerank reply).countP P = e.preRerank.countP P :=
    aiRerankResults_countP e.preRerank reply P hP (preRerank_nodup_ids e)
  have h4 : e.preRerank.countP P ≤ e.topSel.countP P :=
    List.Sublist.countP_le P (List.take_sublist _ _)
  omega

/-- The hotspot-kind test, blind to reasons. -/
def hotB (x : RecommendItem) : Bool := decide (x.place.kind = PlaceKind.community_hotspot)

theorem hotB_clearReasons (x : RecommendItem) : hotB (clearReasons x) = hotB x := rfl

/-- At most `maxHotspots` items of the selection are hotspots. -/
theorem countP_topSel_hotspots (e : Env) : e.topSel.countP hotB ≤ e.maxHotspots := by
  rcases topSel_shape e with ⟨s1, s2, s3, hshape, _, hsub2, hsub3, hlen, _⟩
  rw [hshape, List.countP_append, List.countP_append]
  have h1 : s1.countP hotB ≤ s1.length := List.countP_le_length _
  have h2 : s2.countP hotB = 0 := by
    rw [List.countP_eq_zero]
    intro a ha
    have h2a : a ∈ e.othersSorted := List.mem_of_mem_filter (hsub2.subset ha)
    have := List.of_mem_filter h2a
    simp only [hotB]
    simpa using this
  have h3 : s3.countP hotB = 0 := by
    rw [List.countP_eq_zero]
    intro a ha
    have h3a : a ∈ e.othersSorted := List.mem_of_mem_filter (hsub3.subset ha)
    have := List.of_mem_filter h3a
    simp only [hotB]
    simpa using this
  omega

/-- C3 (amended): in the normal selection branch — at least one real place
kind still allowed — the response carries at most
`min(2, ceil(maxResults/3))` community hotspots (for natural `maxResults`,
`ceil(maxResults/3) = (maxResults+2)/3`).  The hotspots-only branch
(every real place kind excluded) is exempt: there the only bound is
`maxResults` (see the counterexample). -/
theorem claim_C3_hotspot_cap_amended (e : Env) (reply : Option AiReply)
    (hb : ¬ e.allowedKinds = []) :
    (postResults e reply).countP hotB ≤ min 2 ((e.maxResults + 2) / 3) := by
  have h1 := countP_normal_le_topSel e reply hotB hotB_clearReasons hb
  have h2 := countP_topSel_hotspots e
  have h3 : e.maxHotspots ≤ min 2 ((e.maxResults + 2) / 3) := by
    rw [Env.maxHotspots]
    split
    · exact Nat.le_refl _
    · exact Nat.zero_le _
  omega

/-- A near, non-excluded candidate is always scored, keeping its place. -/
theorem scorePlace_some_of_near {e : Env} {pl : Place}
    (hex : e.exclude pl.kind = false)
    (hd : ¬ e.geo.haversine e.lat e.lon pl.lat pl.lon > e.cap) :
    ∃ x, scorePlace e pl = some x ∧ x.place = pl := by
  rw [scorePlace, if_neg (by simp [hex]), if_neg hd]
  exact ⟨_, rfl, rfl⟩

/-- With pairwise distinct keys the identity dedupe is the identity. -/
theorem dedupeFold_of_distinct (geo : Geo) :
    ∀ (items : List RecommendItem) (m : List (String × RecommendItem)),
      (∀ p ∈ m, ∀ x ∈ items, p.1 ≠ dedupeKeyOf geo x) →
      List.Pairwise (fun a b => dedupeKeyOf geo a ≠ dedupeKeyOf geo b) items →
      items.foldl (bestInsert geo) m = m ++ items.map (fun x => (dedupeKeyOf geo x, x)) := by
  intro items
  induction items with
  | nil =>
    intro m _ _
    simp
  | cons x t ih =>
    intro m hkeys hpw
    rw [List.foldl_cons]
    have hfind : List.find? (fun p => p.1 == dedupeKeyOf geo x) m = none := by
      apply List.find?_eq_none.2
      intro p hp
      simp only [beq_iff_eq]
      exact hkeys p hp x (List.mem_cons_self x t)
    have hstep : bestInsert geo m x = m ++ [(dedupeKeyOf geo x, x)] := by
      rw [bestInsert, hfind]
      rfl
    rw [hstep, ih (m ++ [(dedupeKeyOf geo x, x)]) ?_ (List.Pairwise.sublist
      (List.sublist_cons_self x t) hpw)]
    · rw [List.map_cons, List.append_assoc]
      rfl
    · intro p hp y hy
      rcases List.mem_append.1 hp with hp | hp
      · exact hkeys p hp y (List.mem_cons_of_mem x hy)
      · rw [List.mem_singleton] at hp
        subst hp
        exact (List.pairwise_cons.1 hpw).1 y hy

theorem dedupeBestByKey_of_distinct (geo : Geo) (items : List RecommendItem)
    (hpw : List.Pairwise (fun a b => dedupeKeyOf geo a ≠ dedupeKeyOf geo b) items) :
    dedupeBestByKey geo items = items := by
  rw [dedupeBestByKey, dedupeFold_of_distinct geo items []
    (by intro p hp; exact absurd hp (List.not_mem_nil p)) hpw]
  rw [List.nil_append, List.map_map]
  exact List.map_congr_left (fun x _ => rfl) |>.trans (List.map_id items)

theorem dedupeKeyOf_congr_place (geo : Geo) {x y : RecommendItem} (h : x.place = y.place) :
    dedupeKeyOf geo x = dedupeKeyOf geo y := by
  rw [dedupeKeyOf, dedupeKeyOf, h]

/-- The hotspots-only counterexample geometry: distinct parents for the
three report cells, distances all zero. -/
def geoC3 : Geo :=
  { latLngToCell := fun _ _ _ => "x"
    cellToParent := fun c _ => c
    cellToLatLng := fun c => if c = "a" then (1, 1) else if c = "b" then (2, 2) else (3, 3)
    gridDisk := fun c _ => [c]
    haversine := fun _ _ _ _ => 0 }

/-- The hotspots-only counterexample environment: every real place kind
excluded, community hotspots enabled, `maxResults = 5`, and three report
cells with two yes-reports each and distinct reported names. -/
def envC3 : Env :=
  { geo := geoC3
    camScoreF := fun _ => 0
    text := ""
    lat := 0
    lon := 0
    maxResultsRaw := 5
    exclude := fun k => !(decide (k = PlaceKind.community_hotspot))
    places := []
    cameras := []
    reportCells := [mkCell "a" 2 (some "A"), mkCell "b" 2 (some "B"), mkCell "c" 2 (some "C")] }

/-- The three hotspot pseudo-places the counterexample builds. -/
def hotA : Place :=
  { id := "community/a", kind := PlaceKind.community_hotspot, name := some "A", lat := 1, lon := 1 }

def hotB2 : Place :=
  { id := "community/b", kind := PlaceKind.community_hotspot, name := some "B", lat := 2, lon := 2 }

def hotC : Place :=
  { id := "community/c", kind := PlaceKind.community_hotspot, name := some "C", lat := 3, lon := 3 }

/-- C3 counterexample: with every real place kind excluded but community
hotspots enabled (so "hotspots are enabled" in the claim's sense), the
hotspots-only branch returns all hotspots up to `maxResults`: here three
hotspot results at `maxResults = 5`, exceeding `min(2, ceil(5/3)) = 2`. -/
theorem claim_C3_counterexample :
    envC3.communityEnabled = true ∧ envC3.maxResults = 5 ∧
    (postResults envC3 none).countP hotB = 3 ∧
    ¬ ((postResults envC3 none).countP hotB ≤ min 2 ((envC3.maxResults + 2) / 3)) := by
  have hb : envC3.allowedKinds = [] := by decide
  have hen : envC3.communityEnabled = true := by decide
  have hmr : envC3.maxResults = 5 := by decide
  have hcap : envC3.cap = 5775 := by
    rw [Env.cap, Env.cfg, show envC3.intent = Intent.general_safe_meetup from by decide]
    norm_num [intentConfig]
  have hno : ¬ ((0 : ℚ) > envC3.cap) := by
    rw [hcap]
    norm_num
  have hagg : hotspotAggregate envC3.geo envC3.reportCells =
      [("a", { yes := 2, no := 0, count := 1, bestChild := "a", bestYes := 2 }),
       ("b", { yes := 2, no := 0, count := 1, bestChild := "b", bestYes := 2 }),
       ("c", { yes := 2, no := 0, count := 1, bestChild := "c", bestYes := 2 })] := by
    decide
  have hhot : buildHotspots envC3 = [hotA, hotB2, hotC] := by
    rw [buildHotspots, hagg]
    simp only [List.filterMap_cons, List.filterMap_nil]
    simp only [show ∀ a b c d, envC3.geo.haversine a b c d = (0 : ℚ) from fun _ _ _ _ => rfl,
      if_neg hno]
    decide
  have hhots : envC3.hotspots = [hotA, hotB2, hotC] := by
    rw [Env.hotspots, if_pos hen, hhot]
  have hexA : envC3.exclude hotA.kind = false := by decide
  have hexB : envC3.exclude hotB2.kind = false := by decide
  have hexC : envC3.exclude hotC.kind = false := by decide
  rcases scorePlace_some_of_near hexA (hno : ¬ envC3.geo.haversine envC3.lat envC3.lon
    hotA.lat hotA.lon > envC3.cap) with ⟨xA, hsA, hpA⟩
  rcases scorePlace_some_of_near hexB (hno : ¬ envC3.geo.haversine envC3.lat envC3.lon
    hotB2.lat hotB2.lon > envC3.cap) with ⟨xB, hsB, hpB⟩
  rcases scorePlace_some_of_near hexC (hno : ¬ envC3.geo.haversine envC3.lat envC3.lon
    hotC.lat hotC.lon > envC3.cap) with ⟨xC, hsC, hpC⟩
  have hscored : envC3.scored = [xA, xB, xC] := by
    rw [Env.scored, hhots]
    simp only [show envC3.places = ([] : List Place) from rfl, List.filterMap_nil,
      List.nil_append, List.filterMap_cons, hsA, hsB, hsC]
  have hkA : dedupeKeyOf envC3.geo xA = "community_hotspot|a" := by
    rw [dedupeKeyOf_congr_place envC3.geo
      (show xA.place = ({ dummyItem with place := hotA } : RecommendItem).place from hpA)]
    decide
  have hkB : dedupeKeyOf envC3.geo xB = "community_hotspot|b" := by
    rw [dedupeKeyOf_congr_place envC3.geo
      (show xB.place = ({ dummyItem with place := hotB2 } : RecommendItem).place from hpB)]
    decide
  have hkC : dedupeKeyOf envC3.geo xC = "community_hotspot|c" := by
    rw [dedupeKeyOf_congr_place envC3.geo
      (show xC.place = ({ dummyItem with place := hotC } : RecommendItem).place from hpC)]
    decide
  have hpw : List.Pairwise (fun a b => dedupeKeyOf envC3.geo a ≠ dedupeKeyOf envC3.geo b)
      [xA, xB, xC] := by
    rw [List.pairwise_cons]
    constructor
    · intro b hb
      rcases List.mem_cons.1 hb with hb | hb
      · rw [hb, hkA, hkB]
        decide
      · rw [List.mem_singleton] at hb
        rw [hb, hkA, hkC]
        decide
    · rw [List.pairwise_cons]
      constructor
      · intro b hb
        rw [List.mem_singleton] at hb
        rw [hb, hkB, hkC]
        decide
      · exact List.pairwise_singleton _ _
  have hded : dedupeBestByKey envC3.geo envC3.scored = [xA, xB, xC] := by
    rw [hscored]
    exact dedupeBestByKey_of_distinct _ _ hpw
  have hperm : (envC3.sortedDeduped).Perm [xA, xB, xC] := by
    rw [Env.sortedDeduped, hded]
    exact sortByScoreDesc_perm _
  have hhotAll : ∀ x ∈ envC3.sortedDeduped, x.place.kind = PlaceKind.community_hotspot := by
    intro x hx
    rcases List.mem_cons.1 (hperm.mem_iff.1 hx) with h | h
    · rw [h, hpA]
      rfl
    · rcases List.mem_cons.1 h with h | h
      · rw [h, hpB]
        rfl
      · rw [List.mem_singleton] at h
        rw [h, hpC]
        rfl
  have hfilter : envC3.hotspotsSorted = envC3.sortedDeduped := by
    rw [Env.hotspotsSorted]
    apply List.filter_eq_self.2
    intro a ha
    simpa using hhotAll a ha
  have hlen : envC3.sortedDeduped.length = 3 := by
    rw [hperm.length_eq]
    rfl
  have hres : postResults envC3 none = envC3.sortedDeduped := by
    rw [postResults, if_pos hb, Env.hotspotsOnlyResults, if_pos hen, hfilter, hmr]
    exact List.take_of_length_le (by omega)
  have hbxA : hotB xA = true := by
    rw [hotB, hpA]
    decide
  have hbxB : hotB xB = true := by
    rw [hotB, hpB]
    decide
  have hbxC : hotB xC = true := by
    rw [hotB, hpC]
    decide
  have hcount : (postResults envC3 none).countP hotB = 3 := by
    rw [hres, hperm.countP_eq]
    simp [List.countP_cons, hbxA, hbxB, hbxC]
  refine ⟨hen, hmr, hcount, ?_⟩
  rw [hcount, hmr]
  decide

/-- Witness for the normal-branch hypothesis of C3's amended theorem at a
concrete environment with allowed place kinds. -/
theorem claim_C3_hotspot_cap_amended_witness :
    (¬ envC5.allowedKinds = []) ∧
    (postResults envC5 none).countP hotB ≤ min 2 ((envC5.maxResults + 2) / 3) :=
  ⟨by decide, claim_C3_hotspot_cap_amended envC5 none (by decide)⟩

/-! ## Generic hotspot-label uniqueness (claim C9) -/

/-- Test for a hotspot bearing the synthesized confirmed label. -/
def confirmedHotspotB (x : RecommendItem) : Bool :=
  hotB x && (x.place.name == some "Community confirmed camera area")

/-- Test for a hotspot bearing the synthesized reported label. -/
def reportedHotspotB (x : RecommendItem) : Bool :=
  hotB x && (x.place.name == some "Community reported camera area")

theorem confirmedHotspotB_clearReasons (x : RecommendItem) :
    confirmedHotspotB (clearReasons x) = confirmedHotspotB x := rfl

theorem reportedHotspotB_clearReasons (x : RecommendItem) :
    reportedHotspotB (clearReasons x) = reportedHotspotB x := rfl

/-- The dedupe key of a named item is independent of its coordinates. -/
theorem dedupeKeyOf_of_name (geo : Geo) {x : RecommendItem} {s : String}
    (hk : x.place.kind = PlaceKind.community_hotspot) (hn : x.place.name = some s)
    (hs : s ≠ "") (hns : ¬ normalizeText s = "") :
    dedupeKeyOf geo x = "community_hotspot" ++ "|" ++ normalizeText s := by
  rw [dedupeKeyOf, hn, hk]
  dsimp only
  rw [if_neg hs, if_pos hns]
  rfl

theorem key_of_confirmed (geo : Geo) {x : RecommendItem}
    (h : confirmedHotspotB x = true) :
    dedupeKeyOf geo x = "community_hotspot|community confirmed camera area" := by
  rw [confirmedHotspotB, Bool.and_eq_true] at h
  rcases h with ⟨h1, h2⟩
  have hk : x.place.kind = PlaceKind.community_hotspot := of_decide_eq_true h1
  have hn : x.place.name = some "Community confirmed camera area" := beq_iff_eq.1 h2
  rw [dedupeKeyOf_of_name geo hk hn (by decide) (by decide)]
  decide

theorem key_of_reported (geo : Geo) {x : RecommendItem}
    (h : reportedHotspotB x = true) :
    dedupeKeyOf geo x = "community_hotspot|community reported camera area" := by
  rw [reportedHotspotB, Bool.and_eq_true] at h
  rcases h with ⟨h1, h2⟩
  have hk : x.place.kind = PlaceKind.community_hotspot := of_decide_eq_true h1
  have hn : x.place.name = some "Community reported camera area" := beq_iff_eq.1 h2
  rw [dedupeKeyOf_of_name geo hk hn (by decide) (by decide)]
  decide

/-- In a list with pairwise distinct keys, a predicate that pins the key
holds at most once. -/
theorem countP_le_one_of_key {α : Type} (f : α → String) (K : String)
    (P : α → Bool) (hPK : ∀ x, P x = true → f x = K) :
    ∀ l : List α, List.Pairwise (fun a b => f a ≠ f b) l → l.countP P ≤ 1 := by
  intro l
  induction l with
  | nil => intro _; simp
  | cons a t ih =>
    intro hpw
    rcases List.pairwise_cons.1 hpw with ⟨ha, ht⟩
    rw [List.countP_cons]
    by_cases hPa : P a = true
    · have hzero : t.countP P = 0 := by
        rw [List.countP_eq_zero]
        intro b hb hPb
        exact ha b hb ((hPK b hPb).trans (hPK a hPa).symm).symm
      rw [hzero, hPa]
      simp
    · have : P a = false := by
        cases h : P a with
        | true => exact absurd h hPa
        | false => rfl
      rw [this]
      simpa using ih ht

/-- A reason-blind count over either response branch is bounded by the same
count over the deduped pool. -/
theorem countP_postResults_le_deduped (e : Env) (reply : Option AiReply)
    (P : RecommendItem → Bool) (hP : ∀ x, P (clearReasons x) = P x) :
    (postResults e reply).countP P ≤ (dedupeBestByKey e.geo e.scored).countP P := by
  have hsd : e.sortedDeduped.countP P = (dedupeBestByKey e.geo e.scored).countP P :=
    (sortByScoreDesc_perm _).countP_eq P
  by_cases hb : e.allowedKinds = []
  · rw [postResults, if_pos hb, Env.hotspotsOnlyResults]
    have h1 : ((if e.communityEnabled then e.hotspotsSorted else []).take
        e.maxResults).countP P ≤
        (if e.communityEnabled then e.hotspotsSorted else []).countP P :=
      List.Sublist.countP_le P (List.take_sublist _ _)
    have h2 : (if e.communityEnabled then e.hotspotsSorted else []).countP P ≤
        e.sortedDeduped.countP P := by
      split
      · exact List.Sublist.countP_le P (List.filter_sublist _)
      · simp
    omega
  · have h1 := countP_normal_le_topSel e reply P hP hb
    have h2 : e.topSel.countP P ≤ e.sortedDeduped.countP P := by
      rcases topSel_shape e with ⟨s1, s2, s3, hshape, hsub1, hsub2, hsub3, _, _⟩
      rw [hshape, List.countP_append, List.countP_append]
      have b1 : s1.countP P ≤ e.hotspotsSorted.countP P :=
        List.Sublist.countP_le P hsub1
      have b2 : s2.countP P ≤ e.primary.countP P := List.Sublist.countP_le P hsub2
      have b3 : s3.countP P ≤ e.secondary.countP P := List.Sublist.countP_le P hsub3
      have hothers : e.primary.countP P + e.secondary.countP P =
          e.othersSorted.countP P :=
        countP_partition P hasEvidence e.othersSorted
      have hsplit : e.hotspotsSorted.countP P + e.othersSorted.countP P =
          e.sortedDeduped.countP P := by
        have hos : e.othersSorted = e.sortedDeduped.filter
            (fun x => !(decide (x.place.kind = PlaceKind.community_hotspot))) := by
          rw [Env.othersSorted]
          apply List.filter_congr
          intro a _
          rw [decide_not]
        rw [Env.hotspotsSorted, hos]
        exact countP_partition P
          (fun x => decide (x.place.kind = PlaceKind.community_hotspot)) e.sortedDeduped
      omega
    omega

/-- In a map with unique keys, `find?` by key returns the entry. -/
theorem find?_key_entry {m : List (String × RecommendItem)}
    (hN : (m.map Prod.fst).Nodup) {k : String} {v : RecommendItem} (hm : (k, v) ∈ m) :
    List.find? (fun p => p.1 == k) m = some (k, v) := by
  apply find?_eq_of_unique
  · exact hm
  · simp
  · intro b hb hpb
    have hbk : b.1 = k := beq_iff_eq.1 hpb
    exact List.inj_on_of_nodup_map hN hb hm (by rw [hbk])

/-- After a `bestInsert` of `x`, the entry at `x`'s key scores at least
`x`. -/
theorem bestInsert_entry (geo : Geo) (m : List (String × RecommendItem))
    (x : RecommendItem) (_h1 : (m.map Prod.fst).Nodup)
    (_h2 : ∀ p ∈ m, dedupeKeyOf geo p.2 = p.1) :
    ∃ v, (dedupeKeyOf geo x, v) ∈ bestInsert geo m x ∧ x.score ≤ v.score := by
  rw [bestInsert]
  cases hf : List.find? (fun p => p.1 == dedupeKeyOf geo x) m with
  | none =>
    dsimp only [Option.map]
    exact ⟨x, List.mem_append_right m (List.mem_singleton.2 rfl), le_refl _⟩
  | some q =>
    have hq : q ∈ m := List.mem_of_find?_eq_some hf
    have hqk : q.1 = dedupeKeyOf geo x := by
      have := List.find?_some hf
      simpa using this
    dsimp only [Option.map]
    by_cases hsc : x.score > q.2.score
    · rw [if_pos hsc]
      refine ⟨x, List.mem_map.2 ⟨q, hq, ?_⟩, le_refl _⟩
      rw [if_pos (beq_iff_eq.2 hqk)]
    · rw [if_neg hsc]
      refine ⟨q.2, ?_, le_of_not_gt hsc⟩
      have : (q.1, q.2) ∈ m := by
        rw [Prod.mk.eta]
        exact hq
      rw [← hqk]
      exact this

/-- `bestInsert` never loses an entry, and any replacement only raises its
score. -/
theorem bestInsert_persist (geo : Geo) (m : List (String × RecommendItem))
    (x : RecommendItem) (h1 : (m.map Prod.fst).Nodup)
    (_h2 : ∀ p ∈ m, dedupeKeyOf geo p.2 = p.1) {k : String} {v : RecommendItem}
    (hm : (k, v) ∈ m) :
    ∃ v2, (k, v2) ∈ bestInsert geo m x ∧ v.score ≤ v2.score := by
  rw [bestInsert]
  cases hf : List.find? (fun p => p.1 == dedupeKeyOf geo x) m with
  | none =>
    dsimp only [Option.map]
    exact ⟨v, List.mem_append_left _ hm, le_refl _⟩
  | some q =>
    dsimp only [Option.map]
    by_cases hsc : x.score > q.2.score
    · rw [if_pos hsc]
      by_cases hkx : k = dedupeKeyOf geo x
      · have hqk : q.1 = dedupeKeyOf geo x := by
          have := List.find?_some hf
          simpa using this
        have hq : q ∈ m := List.mem_of_find?_eq_some hf
        have hqv : q = (k, v) := by
          apply List.inj_on_of_nodup_map h1 hq hm
          rw [hqk, hkx]
        refine ⟨x, ?_, ?_⟩
        · rw [hkx]
          exact List.mem_map.2 ⟨(k, v), hm, by rw [if_pos (by simpa using hkx)]⟩
        · have : q.2 = v := by rw [hqv]
          rw [← this]
          exact le_of_lt hsc
      · refine ⟨v, List.mem_map.2 ⟨(k, v), hm, ?_⟩, le_refl _⟩
        rw [if_neg (by simpa using hkx)]
    · rw [if_neg hsc]
      exact ⟨v, hm, le_refl _⟩

/-- Through the whole dedupe fold, every processed item is dominated by the
surviving entry at its key. -/
theorem dedupeFold_max (geo : Geo) :
    ∀ (items : List RecommendItem) (m : List (String × RecommendItem)),
      (m.map Prod.fst).Nodup →
      (∀ p ∈ m, dedupeKeyOf geo p.2 = p.1) →
      (∀ k v, (k, v) ∈ m →
        ∃ v2, (k, v2) ∈ items.foldl (bestInsert geo) m ∧ v.score ≤ v2.score) ∧
      (∀ u ∈ items, ∃ v, (dedupeKeyOf geo u, v) ∈ items.foldl (bestInsert geo) m ∧
        u.score ≤ v.score) := by
  intro items
  induction items with
  | nil =>
    intro m h1 h2
    refine ⟨fun k v hm => ⟨v, hm, le_refl _⟩, ?_⟩
    intro u hu
    exact absurd hu (List.not_mem_nil u)
  | cons x t ih =>
    intro m h1 h2
    rcases bestInsert_inv geo m x h1 h2 with ⟨s1, s2, _⟩
    rcases ih (bestInsert geo m x) s1 s2 with ⟨p1, p2⟩
    rw [List.foldl_cons]
    constructor
    · intro k v hm
      rcases bestInsert_persist geo m x h1 h2 hm with ⟨v1, hv1, hle1⟩
      rcases p1 k v1 hv1 with ⟨v2, hv2, hle2⟩
      exact ⟨v2, hv2, le_trans hle1 hle2⟩
    · intro u hu
      rcases List.mem_cons.1 hu with hu | hu
      · subst hu
        rcases bestInsert_entry geo m u h1 h2 with ⟨v1, hv1, hle1⟩
        rcases p1 (dedupeKeyOf geo u) v1 hv1 with ⟨v2, hv2, hle2⟩
        exact ⟨v2, hv2, le_trans hle1 hle2⟩
      · exact p2 u hu

/-- Every input item is dominated by a surviving deduped item with the same
key. -/
theorem dedupeBestByKey_max (geo : Geo) (items : List RecommendItem) :
    ∀ u ∈ items, ∃ v ∈ dedupeBestByKey geo items,
      dedupeKeyOf geo v = dedupeKeyOf geo u ∧ u.score ≤ v.score := by
  intro u hu
  rcases (dedupeFold_max geo items [] (by simp) (by simp)).2 u hu with ⟨v, hv, hle⟩
  rcases dedupeFold_inv geo items [] (by simp) (by simp) with ⟨_, h2, _⟩
  refine ⟨v, ?_, ?_, hle⟩
  · rw [dedupeBestByKey]
    exact List.mem_map_of_mem Prod.snd hv
  · exact h2 _ hv

/-- C9: every response carries at most one hotspot named
"Community confirmed camera area" and at most one named
"Community reported camera area" — any two items bearing the same synthesized
label share the same identity-dedupe key (kind plus normalized name,
coordinates ignored, so even kilometer-apart hotspots collide), the deduped
pool has pairwise distinct keys, and the pool's surviving item at any key
dominates the scores of all scored items with that key. -/
theorem claim_C9_generic_label_collapse :
    (∀ (e : Env) (reply : Option AiReply),
      (postResults e reply).countP confirmedHotspotB ≤ 1) ∧
    (∀ (e : Env) (reply : Option AiReply),
      (postResults e reply).countP reportedHotspotB ≤ 1) ∧
    (∀ (geo : Geo) (x y : RecommendItem), confirmedHotspotB x = true →
      confirmedHotspotB y = true → dedupeKeyOf geo x = dedupeKeyOf geo y) ∧
    (∀ (geo : Geo) (x y : RecommendItem), reportedHotspotB x = true →
      reportedHotspotB y = true → dedupeKeyOf geo x = dedupeKeyOf geo y) ∧
    (∀ e : Env, ∀ u ∈ e.scored, ∃ v ∈ dedupeBestByKey e.geo e.scored,
      dedupeKeyOf e.geo v = dedupeKeyOf e.geo u ∧ u.score ≤ v.score) := by
  refine ⟨?_, ?_, ?_, ?_, ?_⟩
  · intro e reply
    refine le_trans (countP_postResults_le_deduped e reply confirmedHotspotB
      confirmedHotspotB_clearReasons) ?_
    exact countP_le_one_of_key (dedupeKeyOf e.geo)
      "community_hotspot|community confirmed camera area" confirmedHotspotB
      (fun x hx => key_of_confirmed e.geo hx) _ (dedupeBestByKey_inv e.geo e.scored).1
  · intro e reply
    refine le_trans (countP_postResults_le_deduped e reply reportedHotspotB
      reportedHotspotB_clearReasons) ?_
    exact countP_le_one_of_key (dedupeKeyOf e.geo)
      "community_hotspot|community reported camera area" reportedHotspotB
      (fun x hx => key_of_reported e.geo hx) _ (dedupeBestByKey_inv e.geo e.scored).1
  · intro geo x y hx hy
    rw [key_of_confirmed geo hx, key_of_confirmed geo hy]
  · intro geo x y hx hy
    rw [key_of_reported geo hx, key_of_reported geo hy]
  · intro e u hu
    exact dedupeBestByKey_max e.geo e.scored u hu

/-- Two kilometer-apart confirmed-label hotspot items for the C9 witness. -/
def witHot1 : RecommendItem :=
  { dummyItem with
    place :=
      { id := "community/p1"
        kind := PlaceKind.community_hotspot
        name := some "Community confirmed camera area"
        lat := 10
        lon := 10 } }

def witHot2 : RecommendItem :=
  { dummyItem with
    place :=
      { id := "community/p2"
        kind := PlaceKind.community_hotspot
        name := some "Community confirmed camera area"
        lat := 50
        lon := 50 } }

/-- Witness for C9's key-collision hypotheses at two concrete, far-apart
confirmed-label hotspots. -/
theorem claim_C9_generic_label_collapse_witness :
    confirmedHotspotB witHot1 = true ∧ confirmedHotspotB witHot2 = true ∧
    dedupeKeyOf geoC3 witHot1 = dedupeKeyOf geoC3 witHot2 :=
  ⟨by decide, by decide,
    claim_C9_generic_label_collapse.2.2.1 geoC3 witHot1 witHot2 (by decide) (by decide)⟩

/-! ## Near-duplicate freedom of the response (claim C6) -/

/-- The near-duplicate relation of the presentation dedupe: both effective
normalized names non-empty and equal, and the pair within 180 meters (the
distance computed, as in the source, from the earlier item to the later
one). -/
def nearDup (geo : Geo) (o it : RecommendItem) : Prop :=
  effName it ≠ "" ∧ effName o ≠ "" ∧ effName it = effName o ∧
    geo.haversine o.place.lat o.place.lon it.place.lat it.place.lon ≤ 180

theorem dupCheck_eq_true_iff (geo : Geo) (o it : RecommendItem) :
    dupCheck geo 180 o it = true ↔ nearDup geo o it := by
  simp [dupCheck, nearDup, and_assoc]

theorem not_nearDup_of_dupCheck_false {geo : Geo} {o it : RecommendItem}
    (h : dupCheck geo 180 o it = false) : ¬ nearDup geo o it := by
  intro hnd
  rw [← dupCheck_eq_true_iff geo o it] at hnd
  rw [h] at hnd
  exact absurd hnd (by simp)

/-- The effective name of an item whose place carries a non-empty name. -/
theorem effName_of_place_name {x : RecommendItem} {s : String}
    (hn : x.place.name = some s) (hs : s ≠ "") : effName x = normalizeText s := by
  rw [effName, hn]
  show normalizeNameForKey (if s = "" then x.report_place_name else some s) = _
  rw [if_neg hs]
  rfl

/-- A scored hotspot-kind item in an honest environment (the places feed
never returns the synthetic kind) has a non-empty place name, and its
identity key is determined by that name alone whenever its effective name is
non-empty. -/
theorem scored_hotspot_name {e : Env}
    (hPlaces : ∀ pl ∈ e.places, pl.kind ≠ PlaceKind.community_hotspot)
    {x : RecommendItem} (hx : x ∈ e.scored)
    (hk : x.place.kind = PlaceKind.community_hotspot) :
    ∃ s, x.place.name = some s ∧ s ≠ "" := by
  rcases mem_scored hx with ⟨pl, hpl, hs⟩
  have hxp : x.place = pl := (scorePlace_some hs).1
  rcases hpl with hpl | hpl
  · exact absurd (hxp ▸ hk) (hPlaces pl hpl)
  · rw [Env.hotspots] at hpl
    by_cases hen : e.communityEnabled = true
    · rw [if_pos hen] at hpl
      rcases (buildHotspots_kind_name e pl hpl).2 with ⟨s, hn, hne⟩
      exact ⟨s, by rw [hxp, hn], hne⟩
    · rw [if_neg hen] at hpl
      exact absurd hpl (List.not_mem_nil pl)

/-- C6: no two results of a response share a non-empty effective normalized
name while lying within 180 meters of each other, in either branch, provided
the places collaborator honours its contract of never returning the
synthetic hotspot kind.  The normal branch is guarded by the final
`dedupeByNameAndDistance` pass; the hotspots-only branch by the identity
dedupe, whose key for the name-bearing hotspots is exactly kind plus
normalized name. -/
theorem claim_C6_no_near_duplicates (e : Env) (reply : Option AiReply)
    (hPlaces : ∀ pl ∈ e.places, pl.kind ≠ PlaceKind.community_hotspot) :
    List.Pairwise (fun o it => ¬ nearDup e.geo o it) (postResults e reply) := by
  rw [postResults]
  by_cases hb : e.allowedKinds = []
  · rw [if_pos hb, Env.hotspotsOnlyResults]
    by_cases hen : e.communityEnabled = true
    · rw [if_pos hen]
      have hpw0 : List.Pairwise
          (fun a b => dedupeKeyOf e.geo a ≠ dedupeKeyOf e.geo b) e.sortedDeduped := by
        have hsymm : ∀ {a b : RecommendItem},
            dedupeKeyOf e.geo a ≠ dedupeKeyOf e.geo b →
              dedupeKeyOf e.geo b ≠ dedupeKeyOf e.geo a := fun h => h.symm
        exact ((sortByScoreDesc_perm (dedupeBestByKey e.geo e.scored)).pairwise_iff
          hsymm).2 (dedupeBestByKey_inv e.geo e.scored).1
      have hpw1 : List.Pairwise
          (fun a b => dedupeKeyOf e.geo a ≠ dedupeKeyOf e.geo b) e.hotspotsSorted :=
        hpw0.sublist (List.filter_sublist _)
      have hpw2 : List.Pairwise
          (fun a b => dedupeKeyOf e.geo a ≠ dedupeKeyOf e.geo b)
          (e.hotspotsSorted.take e.maxResults) := hpw1.sublist (List.take_sublist _ _)
      refine hpw2.imp_of_mem ?_
      intro a b ha hb2 hkey hnd
      have haS : a ∈ e.sortedDeduped :=
        List.mem_of_mem_filter ((List.take_sublist _ _).subset ha)
      have hbS : b ∈ e.sortedDeduped :=
        List.mem_of_mem_filter ((List.take_sublist _ _).subset hb2)
      have haK : a.place.kind = PlaceKind.community_hotspot := by
        have := List.of_mem_filter ((List.take_sublist _ _).subset ha)
        simpa using this
      have hbK : b.place.kind = PlaceKind.community_hotspot := by
        have := List.of_mem_filter ((List.take_sublist _ _).subset hb2)
        simpa using this
      rcases scored_hotspot_name hPlaces (mem_sortedDeduped haS) haK with ⟨sa, hna, hsa⟩
      rcases scored_hotspot_name hPlaces (mem_sortedDeduped hbS) hbK with ⟨sb, hnb, hsb⟩
      rcases hnd with ⟨hne_b, hne_a, heq, _⟩
      have hea : effName a = normalizeText sa := effName_of_place_name hna hsa
      have heb : effName b = normalizeText sb := effName_of_place_name hnb hsb
      have hnsa : ¬ normalizeText sa = "" := by
        rw [← hea]
        exact hne_a
      have hnsb : ¬ normalizeText sb = "" := by
        rw [← heb]
        exact hne_b
      apply hkey
      rw [dedupeKeyOf_of_name e.geo haK hna hsa hnsa,
        dedupeKeyOf_of_name e.geo hbK hnb hsb hnsb, ← hea, ← heb, heq]
    · rw [if_neg hen]
      simp
  · rw [if_neg hb, Env.normalResults]
    have hpw := dedupeByNameAndDistance_pairwise e.geo 180
      ((aiRerankResults e.preRerank reply).take e.maxResults)
    have hpw2 := hpw.sublist (List.take_sublist e.maxResults _)
    exact hpw2.imp (fun h => not_nearDup_of_dupCheck_false h)

/-- Witness for C6 at a concrete environment: the fixture fetches no places,
so the collaborator contract holds vacuously, and the response is pairwise
free of near-duplicates. -/
theorem claim_C6_no_near_duplicates_witness :
    (∀ pl ∈ envC3.places, pl.kind ≠ PlaceKind.community_hotspot) ∧
      List.Pairwise (fun o it => ¬ nearDup envC3.geo o it) (postResults envC3 none) :=
  ⟨fun pl hpl => absurd hpl (List.not_mem_nil pl),
    claim_C6_no_near_duplicates envC3 none
      (fun pl hpl => absurd hpl (List.not_mem_nil pl))⟩

/-! ## Hotspot builder anatomy (claim C4) -/

/-- A report cell survives the evidence floor: `yesCount >= 2`
(source line 545). -/
def survives (c : ReportCell) : Bool := !(decide (c.camera_present_count < 2))

/-- The parent group of a parent key: the surviving report cells whose
resolution-9 parent is that key, in feed order. -/
def grpOf (geo : Geo) (cells : List ReportCell) (parent : String) : List ReportCell :=
  cells.filter (fun c => survives c && (parentOf geo c == parent))

/-- One step of the spec-side best-child scan: keep the incumbent unless the
newcomer's yes-count is strictly higher. -/
def firstMaxStep (acc : Option ReportCell) (c : ReportCell) : Option ReportCell :=
  match acc with
  | none => some c
  | some b => if c.camera_present_count > b.camera_present_count then some c else some b

/-- Spec-side description of the best child of a group: the first cell
attaining the highest yes-count (first-encountered wins ties).  This follows
the claim's words and is compared against the builder's accumulator. -/
def firstMaxYesSpec (cells : List ReportCell) : Option ReportCell :=
  cells.foldl firstMaxStep none

theorem firstMaxYesSpec_append (l : List ReportCell) (c : ReportCell) :
    firstMaxYesSpec (l ++ [c]) = firstMaxStep (firstMaxYesSpec l) c := by
  rw [firstMaxYesSpec, firstMaxYesSpec, List.foldl_append]
  rfl

theorem grpOf_append (geo : Geo) (pref : List ReportCell) (c : ReportCell) (k : String) :
    grpOf geo (pref ++ [c]) k =
      grpOf geo pref k ++ (if survives c && (parentOf geo c == k) then [c] else []) := by
  rw [grpOf, grpOf, List.filter_append]
  congr 1
  rw [List.filter_cons, List.filter_nil]

/-- The invariant of the aggregation loop after processing a prefix of the
feed: one entry per surviving parent, keys distinct, and each entry's best
child is the first cell of its group attaining the maximal yes-count. -/
def HotInv (geo : Geo) (m : List (String × HotAgg)) (pref : List ReportCell) : Prop :=
  ((m.map Prod.fst).Nodup) ∧
    (∀ k, k ∈ m.map Prod.fst ↔ ∃ c ∈ pref, survives c = true ∧ parentOf geo c = k) ∧
    (∀ p ∈ m, ∃ b, firstMaxYesSpec (grpOf geo pref p.1) = some b ∧
      p.2.bestChild = b.h3_index ∧ p.2.bestYes = b.camera_present_count)

theorem hotspotStep_low {geo : Geo} {m : List (String × HotAgg)} {c : ReportCell}
    (hy : c.camera_present_count < 2) : hotspotStep geo m c = m := by
  simp only [hotspotStep]
  rw [if_pos hy]

theorem hotspotStep_new {geo : Geo} {m : List (String × HotAgg)} {c : ReportCell}
    (hy : ¬ c.camera_present_count < 2)
    (hf : m.find? (fun p => p.1 == parentOf geo c) = none) :
    hotspotStep geo m c = m ++ [(parentOf geo c,
      { yes := c.camera_present_count, no := c.camera_absent_count, count := 1,
        bestChild := c.h3_index, bestYes := c.camera_present_count })] := by
  simp only [hotspotStep]
  rw [if_neg hy, hf]
  rfl

theorem hotspotStep_merge {geo : Geo} {m : List (String × HotAgg)} {c : ReportCell}
    {pr : String × HotAgg}
    (hy : ¬ c.camera_present_count < 2)
    (hf : m.find? (fun p => p.1 == parentOf geo c) = some pr) :
    hotspotStep geo m c = m.map (fun p =>
      if p.1 == parentOf geo c then
        (parentOf geo c,
          { yes := pr.2.yes + c.camera_present_count
            no := pr.2.no + c.camera_absent_count
            count := pr.2.count + 1
            bestChild := if c.camera_present_count > pr.2.bestYes then c.h3_index
              else pr.2.bestChild
            bestYes := if c.camera_present_count > pr.2.bestYes then c.camera_present_count
              else pr.2.bestYes })
      else p) := by
  simp only [hotspotStep]
  rw [if_neg hy, hf]
  rfl

theorem mergeUpdate_inv (geo : Geo) (m : List (String × HotAgg)) (pref : List ReportCell)
    (c : ReportCell) (pr : String × HotAgg) (na : HotAgg)
    (h : HotInv geo m pref) (hprk : pr.1 = parentOf geo c) (hprm : pr ∈ m)
    (hsv : survives c = true)
    (hna1 : na.bestChild =
      if c.camera_present_count > pr.2.bestYes then c.h3_index else pr.2.bestChild)
    (hna2 : na.bestYes =
      if c.camera_present_count > pr.2.bestYes then c.camera_present_count else pr.2.bestYes) :
    HotInv geo
      (m.map (fun p => if p.1 == parentOf geo c then (parentOf geo c, na) else p))
      (pref ++ [c]) := by
  obtain ⟨h1, h2, h3⟩ := h
  have hkeys : (m.map (fun p =>
      if p.1 == parentOf geo c then (parentOf geo c, na) else p)).map Prod.fst =
        m.map Prod.fst := by
    rw [List.map_map]
    refine List.map_congr_left ?_
    intro p _
    by_cases hpe : p.1 = parentOf geo c
    · simp [Function.comp, hpe]
    · simp [Function.comp, hpe]
  refine ⟨?_, ?_, ?_⟩
  · rw [hkeys]
    exact h1
  · intro k
    rw [hkeys]
    constructor
    · intro hk
      rcases (h2 k).1 hk with ⟨c', hc', hs, hp⟩
      exact ⟨c', List.mem_append_left _ hc', hs, hp⟩
    · rintro ⟨c', hc', hs, hp⟩
      rcases List.mem_append.1 hc' with hc' | hc'
      · exact (h2 k).2 ⟨c', hc', hs, hp⟩
      · rw [List.mem_singleton] at hc'
        subst hc'
        rw [← hp, ← hprk]
        exact List.mem_map.2 ⟨pr, hprm, rfl⟩
  · intro q hq
    rcases List.mem_map.1 hq with ⟨p, hp, rfl⟩
    by_cases hpe : p.1 = parentOf geo c
    · have hpp : p = pr :=
        List.inj_on_of_nodup_map h1 hp hprm (by rw [hpe, hprk])
      have hcond : (p.1 == parentOf geo c) = true := by
        rw [hpe]
        exact beq_self_eq_true _
      rw [if_pos hcond]
      have hgrp : grpOf geo (pref ++ [c]) (parentOf geo c) =
          grpOf geo pref (parentOf geo c) ++ [c] := by
        rw [grpOf_append, hsv]
        simp
      rcases h3 pr hprm with ⟨b, hb1, hb2, hb3⟩
      rw [hprk] at hb1
      by_cases hgt : c.camera_present_count > b.camera_present_count
      · refine ⟨c, ?_, ?_, ?_⟩
        · show firstMaxYesSpec (grpOf geo (pref ++ [c]) (parentOf geo c)) = some c
          rw [hgrp, firstMaxYesSpec_append, hb1]
          simp only [firstMaxStep]
          rw [if_pos hgt]
        · show na.bestChild = c.h3_index
          rw [hna1, hb3, if_pos hgt]
        · show na.bestYes = c.camera_present_count
          rw [hna2, hb3, if_pos hgt]
      · refine ⟨b, ?_, ?_, ?_⟩
        · show firstMaxYesSpec (grpOf geo (pref ++ [c]) (parentOf geo c)) = some b
          rw [hgrp, firstMaxYesSpec_append, hb1]
          simp only [firstMaxStep]
          rw [if_neg hgt]
        · show na.bestChild = b.h3_index
          rw [hna1, hb3, if_neg hgt]
          exact hb2
        · show na.bestYes = b.camera_present_count
          rw [hna2, hb3, if_neg hgt]
    · have hcond : (p.1 == parentOf geo c) = false := by
        rw [beq_eq_false_iff_ne]
        exact hpe
      rw [if_neg (by rw [hcond]; exact Bool.false_ne_true)]
      have hgrp : grpOf geo (pref ++ [c]) p.1 = grpOf geo pref p.1 := by
        rw [grpOf_append]
        have hc2 : (parentOf geo c == p.1) = false := by
          rw [beq_eq_false_iff_ne]
          exact fun he => hpe he.symm
        rw [hc2]
        simp
      rw [hgrp]
      exact h3 p hp

theorem hotspotStep_inv {geo : Geo} {m : List (String × HotAgg)} {pref : List ReportCell}
    (c : ReportCell) (h : HotInv geo m pref) :
    HotInv geo (hotspotStep geo m c) (pref ++ [c]) := by
  obtain ⟨h1, h2, h3⟩ := h
  by_cases hy : c.camera_present_count < 2
  · rw [hotspotStep_low hy]
    have hsv : survives c = false := by simp [survives, hy]
    refine ⟨h1, ?_, ?_⟩
    · intro k
      rw [h2 k]
      constructor
      · rintro ⟨c', hc', hs, hp⟩
        exact ⟨c', List.mem_append_left _ hc', hs, hp⟩
      · rintro ⟨c', hc', hs, hp⟩
        rcases List.mem_append.1 hc' with hc' | hc'
        · exact ⟨c', hc', hs, hp⟩
        · rw [List.mem_singleton] at hc'
          subst hc'
          rw [hsv] at hs
          exact absurd hs (by simp)
    · intro p hp
      have hgrp : grpOf geo (pref ++ [c]) p.1 = grpOf geo pref p.1 := by
        rw [grpOf_append, hsv]
        simp
      rw [hgrp]
      exact h3 p hp
  · have hsv : survives c = true := by simp [survives, hy]
    cases hf : m.find? (fun p => p.1 == parentOf geo c) with
    | none =>
      rw [hotspotStep_new hy hf]
      have hnotin : parentOf geo c ∉ m.map Prod.fst := by
        intro hmem
        rcases List.mem_map.1 hmem with ⟨p, hp, hfst⟩
        have := List.find?_eq_none.1 hf p hp
        simp [hfst] at this
      refine ⟨?_, ?_, ?_⟩
      · rw [List.map_append]
        refine List.Nodup.append h1 (by simp) ?_
        intro a ha hb
        simp at hb
        subst hb
        exact hnotin ha
      · intro k
        rw [List.map_append, List.mem_append]
        constructor
        · rintro (hk | hk)
          · rcases (h2 k).1 hk with ⟨c', hc', hs, hp⟩
            exact ⟨c', List.mem_append_left _ hc', hs, hp⟩
          · simp at hk
            subst hk
            exact ⟨c, List.mem_append_right _ (List.mem_singleton_self c), hsv, rfl⟩
        · rintro ⟨c', hc', hs, hp⟩
          rcases List.mem_append.1 hc' with hc' | hc'
          · exact Or.inl ((h2 k).2 ⟨c', hc', hs, hp⟩)
          · rw [List.mem_singleton] at hc'
            subst hc'
            subst hp
            right
            simp
      · intro p hp
        rcases List.mem_append.1 hp with hp | hp
        · have hne : (parentOf geo c == p.1) = false := by
            rw [beq_eq_false_iff_ne]
            intro he
            apply hnotin
            rw [he]
            exact List.mem_map.2 ⟨p, hp, rfl⟩
          have hgrp : grpOf geo (pref ++ [c]) p.1 = grpOf geo pref p.1 := by
            rw [grpOf_append, hne]
            simp
          rw [hgrp]
          exact h3 p hp
        · rw [List.mem_singleton] at hp
          subst hp
          have hempty : grpOf geo pref (parentOf geo c) = [] := by
            rw [grpOf, List.filter_eq_nil_iff]
            intro a ha hcond
            rw [Bool.and_eq_true, beq_iff_eq] at hcond
            exact hnotin ((h2 (parentOf geo c)).2 ⟨a, ha, hcond.1, hcond.2⟩)
          have hgrp : grpOf geo (pref ++ [c]) (parentOf geo c) = [c] := by
            rw [grpOf_append, hempty, hsv]
            simp
          refine ⟨c, ?_, rfl, rfl⟩
          show firstMaxYesSpec (grpOf geo (pref ++ [c]) (parentOf geo c)) = some c
          rw [hgrp]
          rfl
    | some pr =>
      have hprk : pr.1 = parentOf geo c := by
        have := List.find?_some hf
        simpa using this
      have hprm : pr ∈ m := List.mem_of_find?_eq_some hf
      rw [hotspotStep_merge hy hf]
      exact mergeUpdate_inv geo m pref c pr _ ⟨h1, h2, h3⟩ hprk hprm hsv rfl rfl

theorem hotspotFold_inv (geo : Geo) (cells : List ReportCell) :
    ∀ (m : List (String × HotAgg)) (pref : List ReportCell),
      HotInv geo m pref → HotInv geo (cells.foldl (hotspotStep geo) m) (pref ++ cells) := by
  induction cells with
  | nil =>
    intro m pref h
    simpa using h
  | cons c cs ih =>
    intro m pref h
    rw [List.foldl_cons]
    have := ih (hotspotStep geo m c) (pref ++ [c]) (hotspotStep_inv c h)
    rwa [List.append_assoc, List.singleton_append] at this

/-- The aggregation map satisfies the loop invariant over the whole feed. -/
theorem hotspotAggregate_inv (geo : Geo) (cells : List ReportCell) :
    HotInv geo (hotspotAggregate geo cells) cells := by
  have h0 : HotInv geo [] [] := by
    refine ⟨List.nodup_nil, ?_, ?_⟩
    · intro k
      simp
    · intro p hp
      exact absurd hp (List.not_mem_nil p)
  have := hotspotFold_inv geo cells [] [] h0
  simpa [hotspotAggregate] using this

theorem hotspotFold_filter (geo : Geo) (cells : List ReportCell) :
    ∀ m, cells.foldl (hotspotStep geo) m =
      (cells.filter survives).foldl (hotspotStep geo) m := by
  induction cells with
  | nil =>
    intro m
    rfl
  | cons c cs ih =>
    intro m
    by_cases hy : c.camera_present_count < 2
    · have hsv : survives c = false := by simp [survives, hy]
      rw [List.foldl_cons, hotspotStep_low hy, List.filter_cons, hsv]
      simp only [Bool.false_eq_true, if_false]
      exact ih m
    · have hsv : survives c = true := by simp [survives, hy]
      rw [List.foldl_cons, List.filter_cons, hsv]
      simp only [if_true]
      rw [List.foldl_cons]
      exact ih (hotspotStep geo m c)

/-- Rows below the evidence floor are simply discarded: the aggregate of the
feed equals the aggregate of its surviving rows. -/
theorem hotspotAggregate_filter (geo : Geo) (cells : List ReportCell) :
    hotspotAggregate geo cells = hotspotAggregate geo (cells.filter survives) := by
  rw [hotspotAggregate, hotspotAggregate]
  exact hotspotFold_filter geo cells []

/-- Each built hotspot pseudo-place comes from one aggregate entry: its id is
`community/` plus the parent key and its coordinates are the center of that
entry's best child cell. -/
theorem buildHotspots_center (e : Env) :
    ∀ h ∈ buildHotspots e, ∃ p ∈ hotspotAggregate e.geo e.reportCells,
      h.id = "community/" ++ p.1 ∧
        h.lat = (e.geo.cellToLatLng p.2.bestChild).1 ∧
        h.lon = (e.geo.cellToLatLng p.2.bestChild).2 := by
  intro h hmem
  rw [buildHotspots] at hmem
  rcases List.mem_filterMap.1 hmem with ⟨pa, hpa, hsome⟩
  by_cases hd : e.geo.haversine e.lat e.lon (e.geo.cellToLatLng pa.2.bestChild).1
      (e.geo.cellToLatLng pa.2.bestChild).2 > e.cap
  · rw [if_pos hd] at hsome
    exact absurd hsome (by simp)
  · rw [if_neg hd] at hsome
    have := (Option.some_inj.1 hsome).symm
    subst this
    exact ⟨pa, hpa, rfl, rfl, rfl⟩

/-- C4: the hotspot builder discards every report cell with yes-count below
2 (the aggregate of the feed equals the aggregate of the surviving rows);
it groups surviving cells by their parent at the hotspot resolution,
producing exactly one aggregate entry per parent with a surviving member
(keys are pairwise distinct, and a parent key is present iff some surviving
cell maps to it); each entry's recorded best child is the first cell of its
parent group attaining the highest yes-count (first-encountered winning
ties); and each built hotspot's coordinates are the center of its entry's
best child cell, its id naming the parent. -/
theorem claim_C4_hotspot_builder (e : Env) :
    hotspotAggregate e.geo e.reportCells
        = hotspotAggregate e.geo (e.reportCells.filter survives) ∧
      ((hotspotAggregate e.geo e.reportCells).map Prod.fst).Nodup ∧
      (∀ k, k ∈ (hotspotAggregate e.geo e.reportCells).map Prod.fst ↔
        ∃ c ∈ e.reportCells, survives c = true ∧ parentOf e.geo c = k) ∧
      (∀ p ∈ hotspotAggregate e.geo e.reportCells,
        ∃ b, firstMaxYesSpec (grpOf e.geo e.reportCells p.1) = some b ∧
          p.2.bestChild = b.h3_index ∧ p.2.bestYes = b.camera_present_count) ∧
      (∀ h ∈ buildHotspots e, ∃ p ∈ hotspotAggregate e.geo e.reportCells,
        h.id = "community/" ++ p.1 ∧
          h.lat = (e.geo.cellToLatLng p.2.bestChild).1 ∧
          h.lon = (e.geo.cellToLatLng p.2.bestChild).2) := by
  obtain ⟨h1, h2, h3⟩ := hotspotAggregate_inv e.geo e.reportCells
  exact ⟨hotspotAggregate_filter e.geo e.reportCells, h1, h2, h3, buildHotspots_center e⟩

/-- Witness for C4 at a concrete environment: the entry for parent "a" of
the fixture's aggregate exists, and the theorem yields its best child. -/
theorem claim_C4_hotspot_builder_witness :
    ("a", ({ yes := 2, no := 0, count := 1, bestChild := "a", bestYes := 2 } : HotAgg))
        ∈ hotspotAggregate envC3.geo envC3.reportCells ∧
      ∃ b, firstMaxYesSpec (grpOf envC3.geo envC3.reportCells "a") = some b ∧
        ({ yes := 2, no := 0, count := 1, bestChild := "a", bestYes := 2 } : HotAgg).bestChild
            = b.h3_index ∧
        ({ yes := 2, no := 0, count := 1, bestChild := "a", bestYes := 2 } : HotAgg).bestYes
            = b.camera_present_count :=
  ⟨by decide, (claim_C4_hotspot_builder envC3).2.2.2.1
    ("a", { yes := 2, no := 0, count := 1, bestChild := "a", bestYes := 2 }) (by decide)⟩
